import Mathlib

/-!
# go-irc: message codec, CTCP classification and nickname handlers

A shallow embedding of `protocol.go` and of the event handling part of `irc.go`.

Go strings are byte sequences.  They are modelled as lists of natural numbers, one
number per byte (every Go string is such a list with entries below 256).  A Go
panic (index or slice out of range) is modelled by the result `none`.
-/

namespace Irc

/-- A Go `string`: its bytes, in order. -/
abbrev Str := List Nat

/-! ## The parts of Go's `strings` package that the sources call -/

/-- Go `strings.HasPrefix(s, sep)`. -/
def HasPrefix : Str → Str → Bool
  | _, [] => true
  | [], _ :: _ => false
  | c :: s, d :: sep => c == d && HasPrefix s sep

/-- Go `strings.Index(s, sep)`: the index of the first occurrence of `sep` in `s`;
`none` stands for the result `-1`. -/
def Index : Str → Str → Option Nat
  | [], sep => if HasPrefix [] sep then some 0 else none
  | c :: s, sep =>
    if HasPrefix (c :: s) sep then some 0
    else match Index s sep with
      | some i => some (i + 1)
      | none => none

/-- Go `strings.LastIndex(s, sep)`: the index of the last occurrence of `sep` in `s`;
`none` stands for the result `-1`. -/
def LastIndex : Str → Str → Option Nat
  | [], sep => if HasPrefix [] sep then some 0 else none
  | c :: s, sep =>
    match LastIndex s sep with
    | some i => some (i + 1)
    | none => if HasPrefix (c :: s) sep then some 0 else none

/-- Go `strings.Split(s, sep)` for a separator `sep` of one byte: the pieces of `s`
between the occurrences of the separator.  The result is never empty. -/
def Split : Str → Nat → List Str
  | [], _ => [[]]
  | c :: s, sep =>
    if c = sep then [] :: Split s sep
    else match Split s sep with
      | [] => [[c]]
      | t :: ts => (c :: t) :: ts

/-- Go `strings.ToUpper(s)`.  A string of ASCII bytes only has its letters `a`..`z`
moved to `A`..`Z`; any other string goes through `strings.Map(unicode.ToUpper, s)`,
which is library code driven by the Unicode tables and is the parameter `upperMap`. -/
def ToUpper (upperMap : Str → Str) (s : Str) : Str :=
  if s.all (fun c => decide (c < 128)) then
    s.map (fun c => if 97 ≤ c ∧ c ≤ 122 then c - 32 else c)
  else upperMap s

/-- Go slice expression `s[lo:hi]`; panics unless `lo ≤ hi ≤ len(s)`. -/
def slice (s : Str) (lo hi : Nat) : Option Str :=
  if lo ≤ hi ∧ hi ≤ s.length then some ((s.take hi).drop lo) else none

/-- Go slice expression `s[lo:]`; panics unless `lo ≤ len(s)`. -/
def sliceFrom (s : Str) (lo : Nat) : Option Str :=
  if lo ≤ s.length then some (s.drop lo) else none

/-- Go slice expression `s[:hi]`; panics unless `hi ≤ len(s)`. -/
def sliceTo (s : Str) (hi : Nat) : Option Str :=
  if hi ≤ s.length then some (s.take hi) else none

/-! ## protocol.go -/

/-- The constant `NICK = "NICK"`. -/
def NICK : Str := [78, 73, 67, 75]
/-- The constant `NOTICE = "NOTICE"`. -/
def NOTICE : Str := [78, 79, 84, 73, 67, 69]
/-- The constant `PRIVMSG = "PRIVMSG"`. -/
def PRIVMSG : Str := [80, 82, 73, 86, 77, 83, 71]
/-- The constant `PING = "PING"`. -/
def PING : Str := [80, 73, 78, 71]
/-- The constant `PONG = "PONG"`. -/
def PONG : Str := [80, 79, 78, 71]
/-- The constant `TIME = "TIME"`. -/
def TIME : Str := [84, 73, 77, 69]
/-- The constant `VERSION = "VERSION"`. -/
def VERSION : Str := [86, 69, 82, 83, 73, 79, 78]
/-- The constant `CLIENTINFO = "CLIENTINFO"`. -/
def CLIENTINFO : Str := [67, 76, 73, 69, 78, 84, 73, 78, 70, 79]
/-- The constant `USERINFO = "USERINFO"`. -/
def USERINFO : Str := [85, 83, 69, 82, 73, 78, 70, 79]
/-- The constant `CTCP = "CTCP"`. -/
def CTCP : Str := [67, 84, 67, 80]
/-- The constant `CTCP_VERSION = "CTCP_VERSION"`. -/
def CTCP_VERSION : Str := [67, 84, 67, 80, 95, 86, 69, 82, 83, 73, 79, 78]
/-- The constant `CTCP_TIME = "CTCP_TIME"`. -/
def CTCP_TIME : Str := [67, 84, 67, 80, 95, 84, 73, 77, 69]
/-- The constant `CTCP_PING = "CTCP_PING"`. -/
def CTCP_PING : Str := [67, 84, 67, 80, 95, 80, 73, 78, 71]
/-- The constant `CTCP_USERINFO = "CTCP_USERINFO"`. -/
def CTCP_USERINFO : Str := [67, 84, 67, 80, 95, 85, 83, 69, 82, 73, 78, 70, 79]
/-- The constant `CTCP_CLIENTINFO = "CTCP_CLIENTINFO"`. -/
def CTCP_CLIENTINFO : Str := [67, 84, 67, 80, 95, 67, 76, 73, 69, 78, 84, 73, 78, 70, 79]
/-- The constant `RPL_WELCOME = "001"`. -/
def RPL_WELCOME : Str := [48, 48, 49]
/-- The constant `ERR_NICKNAMEINUSE = "433"`. -/
def ERR_NICKNAMEINUSE : Str := [52, 51, 51]
/-- The constant `ERR_BANNICKCHANGE = "437"`. -/
def ERR_BANNICKCHANGE : Str := [52, 51, 55]

/-- The struct `Event`.  The default value of every field is Go's zero value. -/
structure Event where
  Raw : Str := []
  Source : Str := []
  Nick : Str := []
  User : Str := []
  Host : Str := []
  Code : Str := []
  Arguments : List Str := []
  Message : Str := []
  deriving DecidableEq, Repr

/-- The statement `if i, j := strings.Index(e.Source, "!"), strings.Index(e.Source, "@");
i >= 0 && j >= 0 && i < j { ... }` of `Event.setByLine`.  Byte 33 is `!`, 64 is `@`. -/
def setNickUserHost (e : Event) : Option Event :=
  match Index e.Source [33], Index e.Source [64] with
  | some i, some j =>
    if i < j then do
      let nick ← sliceTo e.Source i
      let user ← slice e.Source (i + 1) j
      let host ← sliceFrom e.Source (j + 1)
      pure { e with Nick := nick, User := user, Host := host }
    else pure e
  | _, _ => pure e

/-- The source prefix part of `Event.setByLine` (the body of `if line[0] == ':'`):
returns the event and the rest of the line.  Byte 32 is the space. -/
def setSource (e : Event) (line : Str) : Option (Event × Str) :=
  match Index line [32] with
  | some p => do
    let src ← slice line 1 p
    let rest ← sliceFrom line (p + 1)
    let e1 ← setNickUserHost { e with Source := src }
    pure (e1, rest)
  | none => pure (e, line)

/-- The trailing message part of `Event.setByLine` (the `" :"` search): returns the
event and the head of the line.  Byte 58 is `:`. -/
def setMessage (e : Event) (line : Str) : Option (Event × Str) :=
  match Index line [32, 58] with
  | some p => do
    let msg ← sliceFrom line (p + 2)
    let head ← sliceTo line p
    pure ({ e with Message := msg }, head)
  | none => pure (e, line)

/-- The last three statements of `Event.setByLine`: `args := strings.Split(line, " ")`,
`e.Code = strings.ToUpper(args[0])` and `e.Arguments = args[1:]`.  `args[0]` would
panic on an empty `args`. -/
def setCode (upperMap : Str → Str) (e : Event) (line : Str) : Option Event :=
  match Split line 32 with
  | [] => none
  | a :: rest => pure { e with Code := ToUpper upperMap a, Arguments := rest }

/-- The method `Event.setByLine`.  `line[0]` panics on the empty line. -/
def setByLine (upperMap : Str → Str) (e : Event) (line : Str) : Option Event :=
  let e0 := { e with Raw := line }
  match line with
  | [] => none
  | c0 :: _ => do
    let (e1, line1) ← if c0 = 58 then setSource e0 line else pure (e0, line)
    let (e2, line2) ← setMessage e1 line1
    setCode upperMap e2 line2

/-- The function `composeMessage`: the buffer after `WriteString(code)`, then one
`WriteRune(' ')` and one `WriteString(p)` per parameter, then the message part. -/
def composeMessage (code message : Str) (params : List Str) : Str :=
  let buf := params.foldl (fun b p => (b ++ [32]) ++ p) code
  if message.length > 0 then (buf ++ [32, 58]) ++ message else buf

/-! ## irc.go -/

/-- The constant `IRC_VERSION = "go-irc"`. -/
def IRC_VERSION : Str := [103, 111, 45, 105, 114, 99]

/-- The data fields of the struct `Client`.  `cWrite` holds the strings sent on the
channel `cWrite`, oldest first.  The handler table is the separate type `Handlers`. -/
structure Client where
  Password : Str := []
  nick : Str := []
  currentNick : Str := []
  username : Str := []
  cWrite : List Str := []
  deriving DecidableEq, Repr

/-- A `func(*Event)` stored in the client: it runs on the client's state and may panic. -/
abbrev Handler := Client → Event → Option Client

/-- The field `handlers map[string]func(*Event)`. -/
abbrev Handlers := Str → Option Handler

/-- The method `Client.Command`: sends `composeMessage(code, message, params...)` on
`cWrite`. -/
def Command (c : Client) (code message : Str) (params : List Str) : Client :=
  { c with cWrite := c.cWrite ++ [composeMessage code message params] }

/-- The method `Client.Notice`. -/
def Notice (c : Client) (target message : Str) : Client :=
  Command c NOTICE message [target]

/-- The method `Client.SetHandler`. -/
def SetHandler (upperMap : Str → Str) (handlers : Handlers) (code : Str)
    (handler : Handler) : Handlers :=
  fun k => if k = ToUpper upperMap code then some handler else handlers k

/-- The CTCP part of `Client.handle`: the statement
`if event.Code == PRIVMSG && len(event.Message) > 0 && event.Message[0] == '\x01' { ... }`.
The slice `event.Message[1:i]` may panic. -/
def classifyCTCP (event : Event) : Option Event :=
  if event.Code = PRIVMSG ∧ event.Message.length > 0 ∧ event.Message.head? = some 1 then do
    let e1 := { event with Code := CTCP }
    let e2 ← match LastIndex e1.Message [1] with
      | some i => do
        let m ← slice e1.Message 1 i
        pure { e1 with Message := m }
      | none => pure e1
    if e2.Message = VERSION then pure { e2 with Code := CTCP_VERSION }
    else if e2.Message = TIME then pure { e2 with Code := CTCP_TIME }
    else if e2.Message.length ≥ 4 ∧ sliceTo e2.Message 4 = some PING then
      pure { e2 with Code := CTCP_PING }
    else if e2.Message = USERINFO then pure { e2 with Code := CTCP_USERINFO }
    else if e2.Message = CLIENTINFO then pure { e2 with Code := CTCP_CLIENTINFO }
    else pure e2
  else pure event

/-- The method `Client.handle`: the CTCP classification, then the handler registered
for the code, else the default handler, else nothing.  The handler, started with `go`
in the source, is run on the spot. -/
def handle (handlers : Handlers) (DefaultHandler : Option Handler) (c : Client)
    (event : Event) : Option Client := do
  let e ← classifyCTCP event
  match handlers e.Code with
  | some handler => handler c e
  | none =>
    match DefaultHandler with
    | some d => d c e
    | none => pure c

/-- The handler that `setupCallbacks` registers for `PING`. -/
def pingHandler : Handler := fun c e => some (Command c PONG e.Message [])

/-- The handler that `setupCallbacks` registers for `CTCP_VERSION`; the format is
`"\x01\x01VERSION %s\x01"`. -/
def ctcpVersionHandler : Handler := fun c e =>
  some (Notice c e.Nick ([1, 1, 86, 69, 82, 83, 73, 79, 78, 32] ++ IRC_VERSION ++ [1]))

/-- The handler that `setupCallbacks` registers for `CTCP_USERINFO`; the format is
`"\x01\x01USERINFO %s\x01"`. -/
def ctcpUserinfoHandler : Handler := fun c e =>
  some (Notice c e.Nick ([1, 1, 85, 83, 69, 82, 73, 78, 70, 79, 32] ++ c.username ++ [1]))

/-- The handler that `setupCallbacks` registers for `CTCP_CLIENTINFO`; the message is
`"\x01CLIENTINFO PING VERSION TIME USERINFO CLIENTINFO\x01"`. -/
def ctcpClientinfoHandler : Handler := fun c e =>
  some (Notice c e.Nick ([1] ++ CLIENTINFO ++ [32] ++ PING ++ [32] ++ VERSION ++ [32] ++ TIME
    ++ [32] ++ USERINFO ++ [32] ++ CLIENTINFO ++ [1]))

/-- The handler that `setupCallbacks` registers for `CTCP_TIME`; the format is
`"\x01TIME %s\x01"` and `timeNow` is the text of `time.Now().String()`. -/
def ctcpTimeHandler (timeNow : Str) : Handler := fun c e =>
  some (Notice c e.Nick ([1] ++ TIME ++ [32] ++ timeNow ++ [1]))

/-- The handler that `setupCallbacks` registers for `CTCP_PING`; the format is
`"\x01%s\x01"`. -/
def ctcpPingHandler : Handler := fun c e =>
  some (Notice c e.Nick ([1] ++ e.Message ++ [1]))

/-- The handler that `setupCallbacks` registers for `ERR_BANNICKCHANGE`.  Byte 95 is `_`. -/
def banNickChangeHandler : Handler := fun c _ =>
  let c1 := { c with currentNick := c.currentNick ++ [95] }
  some (Command c1 NICK [] [c1.currentNick])

/-- The handler that `setupCallbacks` registers for `ERR_NICKNAMEINUSE`. -/
def nicknameInUseHandler : Handler := fun c _ =>
  let c1 :=
    if c.currentNick.length > 8 then { c with currentNick := [95] ++ c.currentNick }
    else { c with currentNick := c.currentNick ++ [95] }
  some (Command c1 NICK [] [c1.currentNick])

/-- The handler that `setupCallbacks` registers for `NICK`. -/
def nickHandler : Handler := fun c e =>
  if e.Nick = c.nick then some { c with currentNick := e.Message } else some c

/-- The handler that `setupCallbacks` registers for `RPL_WELCOME`; `e.Arguments[0]`
panics when the event has no argument. -/
def welcomeHandler : Handler := fun c e =>
  match e.Arguments with
  | [] => none
  | a :: _ => some { c with currentNick := a }

/-- The method `Client.setupCallbacks`: the ten calls of `SetHandler`, in order. -/
def setupCallbacks (upperMap : Str → Str) (timeNow : Str) (handlers : Handlers) : Handlers :=
  let h1 := SetHandler upperMap handlers PING pingHandler
  let h2 := SetHandler upperMap h1 CTCP_VERSION ctcpVersionHandler
  let h3 := SetHandler upperMap h2 CTCP_USERINFO ctcpUserinfoHandler
  let h4 := SetHandler upperMap h3 CTCP_CLIENTINFO ctcpClientinfoHandler
  let h5 := SetHandler upperMap h4 CTCP_TIME (ctcpTimeHandler timeNow)
  let h6 := SetHandler upperMap h5 CTCP_PING ctcpPingHandler
  let h7 := SetHandler upperMap h6 ERR_BANNICKCHANGE banNickChangeHandler
  let h8 := SetHandler upperMap h7 ERR_NICKNAMEINUSE nicknameInUseHandler
  let h9 := SetHandler upperMap h8 NICK nickHandler
  SetHandler upperMap h9 RPL_WELCOME welcomeHandler

/-- The function `NewClient`: the new client and its handler table (an empty map
filled by `setupCallbacks`). -/
def NewClient (upperMap : Str → Str) (timeNow nick username : Str) : Client × Handlers :=
  ({ nick := nick, username := username }, setupCallbacks upperMap timeNow (fun _ => none))

/-! ## The specification's words -/

/-- Go `strings.Join(a, sep)`: the elements of `a` with `sep` between neighbours. -/
def Join : List Str → Str → Str
  | [], _ => []
  | [t], _ => t
  | t :: u :: ts, sep => t ++ sep ++ Join (u :: ts) sep

/-- Each parameter, in order, prefixed by exactly one space. -/
def prefixedParams : List Str → Str
  | [] => []
  | p :: ps => [32] ++ p ++ prefixedParams ps

/-- Parsing the composed line gives back the code, the parameters and the message. -/
def RoundTrips (upperMap : Str → Str) (code message : Str) (params : List Str) : Prop :=
  ∃ e, setByLine upperMap {} (composeMessage code message params) = some e ∧
    e.Code = code ∧ e.Arguments = params ∧ e.Message = message

/-- The string `s` is `pre`, then `sep`, then `post`, and no occurrence of `sep` in `s`
starts before this one. -/
def FirstOccurrence (sep s pre post : Str) : Prop :=
  s = pre ++ sep ++ post ∧ ∀ pre2 post2, s = pre2 ++ sep ++ post2 → pre.length ≤ pre2.length

/-- The string `rem` is what is left of `line` once the optional source prefix (a
leading `:`, the source and the space that ends it) is removed. -/
def IsRemainder (line rem : Str) : Prop :=
  (∃ src, 32 ∉ src ∧ line = 58 :: src ++ 32 :: rem) ∨
    (¬ (line.head? = some 58 ∧ 32 ∈ line) ∧ rem = line)

/-- The string `head` is a sequence of tokens joined by single spaces, the code of `e` is
the first token in upper case and the arguments of `e` are the other tokens. -/
def HeadTokens (upperMap : Str → Str) (head : Str) (e : Event) : Prop :=
  ∃ tok toks, (∀ t ∈ tok :: toks, 32 ∉ t) ∧ head = Join (tok :: toks) [32] ∧
    e.Code = ToUpper upperMap tok ∧ e.Arguments = toks

/-- The source `src` reads `<nick>!<user>@<host>`: `nick` is what precedes the first `!`,
`user` lies between that `!` and the first `@`, and `host` is all that follows that `@`. -/
def IsHostmask (src nick user host : Str) : Prop :=
  src = nick ++ 33 :: user ++ 64 :: host ∧ 33 ∉ nick ∧ 64 ∉ nick ∧ 64 ∉ user

/-! ## irc.go: commands, keepalive and the read loop -/

/-- The constant `USER = "USER"`. -/
def USER : Str := [85, 83, 69, 82]
/-- The constant `PASS = "PASS"`. -/
def PASS : Str := [80, 65, 83, 83]
/-- The constant `JOIN = "JOIN"`. -/
def JOIN : Str := [74, 79, 73, 78]
/-- The constant `PART = "PART"`. -/
def PART : Str := [80, 65, 82, 84]

/-- The method `Client.Raw`: sends `message` on `cWrite`. -/
def Raw (c : Client) (message : Str) : Client :=
  { c with cWrite := c.cWrite ++ [message] }

/-- The method `Client.Ping`; `unixNano` is the text of
`strconv.FormatInt(time.Now().UnixNano(), 10)`. -/
def Ping (c : Client) (unixNano : Str) : Client :=
  Command c PING [] [unixNano]

/-- The method `Client.Join`; byte 44 is the comma. -/
def Client.Join (c : Client) (channels : List Str) : Client :=
  Command c JOIN [] [Irc.Join channels [44]]

/-- The method `Client.Part`. -/
def Client.Part (c : Client) (channels : List Str) : Client :=
  Command c PART [] [Irc.Join channels [44]]

/-- The method `Client.Privmsg`. -/
def Privmsg (c : Client) (target message : Str) : Client :=
  Command c PRIVMSG message [target]

/-- The method `Client.SetNick`. -/
def SetNick (c : Client) (nick : Str) : Client :=
  Command { c with nick := nick } NICK [] [nick]

/-- The registration commands at the end of `Client.Start`, sent on the channel `cWrite`
that `Start` has just made; the last parameter is `"0.0.0.0 0.0.0.0"`. -/
def Start (c : Client) : Client :=
  let c0 := { c with cWrite := [] }
  let c1 := if c0.Password.length > 0 then Command c0 PASS [] [c0.Password] else c0
  let c2 := Command c1 NICK [] [c1.nick]
  Command c2 USER c2.username
    [c2.username, [48, 46, 48, 46, 48, 46, 48, 32, 48, 46, 48, 46, 48, 46, 48]]

/-- The case `<-ticker.C` of `Client.pingLoop` (every minute); `sinceLastMessage` is
`time.Since(c.lastMessage)` in nanoseconds and 4 minutes are 240000000000 ns. -/
def pingLoopTick (c : Client) (sinceLastMessage : Int) (unixNano : Str) : Client :=
  if sinceLastMessage ≥ 240000000000 then Ping c unixNano else c

/-- The case `<-ticker2.C` of `Client.pingLoop` (every 15 minutes). -/
def pingLoopTick2 (c : Client) (unixNano : Str) : Client :=
  let c1 := Ping c unixNano
  if c1.nick ≠ c1.currentNick then
    Command { c1 with currentNick := c1.nick } NICK [] [c1.nick]
  else c1

/-- The statement `line = line[:len(line)-2]` of `Client.readLoop`; it panics when the
line has fewer than two bytes. -/
def stripTerminator (line : Str) : Option Str :=
  if line.length < 2 then none else sliceTo line (line.length - 2)

/-- The body of the loop of `Client.readLoop` after a successful `br.ReadString`: the
line loses its last two bytes, is parsed into a fresh event and the event is handled. -/
def readLoopStep (upperMap : Str → Str) (handlers : Handlers)
    (DefaultHandler : Option Handler) (c : Client) (line : Str) : Option Client := do
  let l ← stripTerminator line
  let e ← setByLine upperMap {} l
  handle handlers DefaultHandler c e

/-! ## irc.go: shutdown -/

/-- The three goroutines that `Client.Start` launches. -/
inductive Loop where
  | read
  | write
  | ping
  deriving DecidableEq, Repr

/-- How far a background loop has come: still in its loop, blocked in its last statement
`c.cExit <- true` (the channel `cExit` has no buffer), or returned. -/
inductive LoopState where
  | running
  | signalling
  | returned
  deriving DecidableEq, Repr

/-- The statements of `Client.Disconnect`: `c.endPing <- true`, `close(c.cWrite)`,
`close(c.cRead)`, `<-c.cExit`, `c.socket.Close()` and `close(c.cError)`. -/
inductive Action where
  | sendEndPing
  | closeWrite
  | closeRead
  | recvExit
  | closeSocket
  | closeError
  deriving DecidableEq, Repr

/-- The body of `Client.Disconnect`, in program order. -/
def DisconnectProgram : List Action :=
  [Action.sendEndPing, Action.closeWrite, Action.closeRead, Action.recvExit, Action.recvExit,
    Action.recvExit, Action.closeSocket, Action.closeError]

/-- A state of a shutdown: where the three loops are, and the statements of
`Disconnect` completed so far, oldest first. -/
structure Shutdown where
  read : LoopState := LoopState.running
  write : LoopState := LoopState.running
  ping : LoopState := LoopState.running
  done : List Action := []
  deriving DecidableEq, Repr

/-- What the scheduler may let happen next: `Disconnect` completes its next statement
when that is not a receive; the receive `<-c.cExit` of `Disconnect` meets the send
`c.cExit <- true` of a loop; or a loop leaves its `for` and reaches `c.cExit <- true`. -/
inductive Move where
  | disconnect
  | receive (l : Loop)
  | finish (l : Loop)
  deriving DecidableEq, Repr

/-- The state of one loop. -/
def Shutdown.loop (s : Shutdown) : Loop → LoopState
  | Loop.read => s.read
  | Loop.write => s.write
  | Loop.ping => s.ping

/-- The state with one loop moved on. -/
def Shutdown.setLoop (s : Shutdown) (l : Loop) (v : LoopState) : Shutdown :=
  match l with
  | Loop.read => { s with read := v }
  | Loop.write => { s with write := v }
  | Loop.ping => { s with ping := v }

/-- The next statement of `Disconnect`, if any is left. -/
def Shutdown.next (s : Shutdown) : Option Action :=
  DisconnectProgram.get? s.done.length

/-- One move.  A move that cannot happen in the state leaves it as it is.  `readLoop`
and `writeLoop` may leave their loop at any time (on a failed read or write, or when
`cWrite` is closed); `pingLoop` leaves its `select` only by receiving from `endPing`,
which is the first statement of `Disconnect` and needs `pingLoop` to be in its loop. -/
def Shutdown.step (s : Shutdown) : Move → Shutdown
  | Move.finish Loop.ping => s
  | Move.finish l =>
    if s.loop l = LoopState.running then s.setLoop l LoopState.signalling else s
  | Move.receive l =>
    if s.next = some Action.recvExit ∧ s.loop l = LoopState.signalling then
      { s.setLoop l LoopState.returned with done := s.done ++ [Action.recvExit] }
    else s
  | Move.disconnect =>
    match s.next with
    | some Action.sendEndPing =>
      if s.ping = LoopState.running then
        { s with ping := LoopState.signalling, done := s.done ++ [Action.sendEndPing] }
      else s
    | some Action.recvExit => s
    | some a => { s with done := s.done ++ [a] }
    | none => s

/-- The state after a sequence of moves, from the state in which the three loops run
and `Disconnect` has just been called. -/
def Shutdown.run (ms : List Move) : Shutdown :=
  ms.foldl Shutdown.step {}

/-- The number of loops that have returned. -/
def Shutdown.returnedCount (s : Shutdown) : Nat :=
  (if s.read = LoopState.returned then 1 else 0) +
  (if s.write = LoopState.returned then 1 else 0) +
  (if s.ping = LoopState.returned then 1 else 0)

/-- The invariant of a shutdown: `Disconnect` has completed a beginning of its body,
and it has received as many signals as loops have returned. -/
def Shutdown.Inv (s : Shutdown) : Prop :=
  s.done = DisconnectProgram.take s.done.length ∧
    s.done.count Action.recvExit = s.returnedCount

instance (s : Shutdown) : Decidable s.Inv := by
  unfold Shutdown.Inv
  infer_instance

/-- The line `:<nick>!<user>@<host> PRIVMSG <target> :\x01VERSION\x01`. -/
def versionQueryLine (nick user host target : Str) : Str :=
  58 :: (nick ++ 33 :: user ++ 64 :: host) ++
    32 :: (PRIVMSG ++ [32] ++ target ++ [32, 58] ++ ([1] ++ VERSION ++ [1]))

/-- The line `NOTICE <nick> :\x01\x01VERSION go-irc\x01`. -/
def versionReplyLine (nick : Str) : Str :=
  NOTICE ++ [32] ++ nick ++ [32, 58] ++ ([1, 1] ++ VERSION ++ [32] ++ IRC_VERSION ++ [1])

/-- The lines sent by a new client, with no default handler, that reads the line
`:<nick>!<user>@<host> PRIVMSG <target> :\x01VERSION\x01` and handles the event. -/
def versionQuerySent (nick user host target : Str) : Option (List Str) :=
  ((setByLine (fun s => s) {} (versionQueryLine nick user host target)).bind
    (handle (setupCallbacks (fun s => s) [] (fun _ => none)) none {})).map (fun c => c.cWrite)

/-! ## Lemmas on the string functions -/

/-- `HasPrefix s sep` holds exactly when `s` is `sep` followed by something. -/
theorem HasPrefix_iff (s sep : Str) : HasPrefix s sep = true ↔ ∃ post, s = sep ++ post := by
  induction sep generalizing s with
  | nil => simp [HasPrefix]
  | cons d sep ih =>
    cases s with
    | nil => simp [HasPrefix]
    | cons c s =>
      simp only [HasPrefix, Bool.and_eq_true, beq_iff_eq, ih, List.cons_append, List.cons.injEq]
      constructor
      · rintro ⟨h, post, hp⟩
        exact ⟨post, h, hp⟩
      · rintro ⟨post, h, hp⟩
        exact ⟨h, post, hp⟩

/-- A result `p` of `Index` is an occurrence of `sep`, and no occurrence starts earlier. -/
theorem Index_some (sep : Str) : ∀ (s : Str) (p : Nat), Index s sep = some p →
    (∃ post, s = s.take p ++ sep ++ post) ∧
      ∀ pre2 post2, s = pre2 ++ sep ++ post2 → p ≤ pre2.length := by
  intro s
  induction s with
  | nil =>
    intro p h
    simp only [Index] at h
    split at h
    · cases h
      rename_i hp
      obtain ⟨post, hpost⟩ := (HasPrefix_iff _ _).1 hp
      exact ⟨⟨post, by simpa using hpost⟩, fun _ _ _ => Nat.zero_le _⟩
    · cases h
  | cons c s ih =>
    intro p h
    simp only [Index] at h
    split at h
    · cases h
      rename_i hp
      obtain ⟨post, hpost⟩ := (HasPrefix_iff _ _).1 hp
      exact ⟨⟨post, by simpa using hpost⟩, fun _ _ _ => Nat.zero_le _⟩
    · rename_i hp
      split at h
      · rename_i i hi
        cases h
        obtain ⟨⟨post, hpost⟩, hfirst⟩ := ih i hi
        refine ⟨⟨post, ?_⟩, ?_⟩
        · simp only [List.take_succ_cons, List.cons_append, List.cons.injEq, true_and]
          simpa using hpost
        · intro pre2 post2 h2
          cases pre2 with
          | nil =>
            exact absurd ((HasPrefix_iff _ _).2 ⟨post2, by simpa using h2⟩) hp
          | cons a pre2 =>
            simp only [List.cons_append, List.cons.injEq] at h2
            have := hfirst pre2 post2 (by simpa using h2.2)
            simpa using this
      · cases h

/-- When `Index` finds nothing, `sep` does not occur in `s`. -/
theorem Index_none (sep : Str) : ∀ (s : Str), Index s sep = none →
    ∀ pre2 post2, s ≠ pre2 ++ sep ++ post2 := by
  intro s
  induction s with
  | nil =>
    intro h pre2 post2 h2
    simp only [Index] at h
    split at h
    · cases h
    · rename_i hp
      have h3 : pre2 = [] := by
        cases pre2 with
        | nil => rfl
        | cons a t => simp at h2
      subst h3
      exact hp ((HasPrefix_iff _ _).2 ⟨post2, by simpa using h2⟩)
  | cons c s ih =>
    intro h pre2 post2 h2
    simp only [Index] at h
    split at h
    · cases h
    · rename_i hp
      split at h
      · cases h
      · rename_i hi
        cases pre2 with
        | nil => exact hp ((HasPrefix_iff _ _).2 ⟨post2, by simpa using h2⟩)
        | cons a pre2 =>
          simp only [List.cons_append, List.cons.injEq] at h2
          exact ih hi pre2 post2 (by simpa using h2.2)


/-- An occurrence found by `Index` lies inside the string. -/
theorem Index_bound (sep : Str) : ∀ (s : Str) (p : Nat), Index s sep = some p →
    p + sep.length ≤ s.length := by
  intro s
  induction s with
  | nil =>
    intro p h
    simp only [Index] at h
    split at h
    · cases h
      rename_i hp
      cases sep with
      | nil => simp
      | cons d sep => simp [HasPrefix] at hp
    · cases h
  | cons c s ih =>
    intro p h
    simp only [Index] at h
    split at h
    · cases h
      rename_i hp
      obtain ⟨post, hpost⟩ := (HasPrefix_iff _ _).1 hp
      have := congrArg List.length hpost
      simp only [List.length_append] at this
      omega
    · split at h
      · rename_i i hi
        cases h
        have := ih i hi
        simp only [List.length_cons]
        omega
      · cases h

/-- The result of `Index` is the place of the first occurrence. -/
theorem Index_of_first (sep s pre post : Str) (h : s = pre ++ sep ++ post)
    (hfirst : ∀ pre2 post2, s = pre2 ++ sep ++ post2 → pre.length ≤ pre2.length) :
    Index s sep = some pre.length := by
  cases hi : Index s sep with
  | none => exact absurd h (Index_none sep s hi pre post)
  | some p =>
    obtain ⟨⟨post1, h1⟩, hf⟩ := Index_some sep s p hi
    have hb := Index_bound sep s p hi
    have h2 := hf pre post h
    have h3 := hfirst _ _ h1
    simp only [List.length_take] at h3
    have : p = pre.length := by omega
    rw [this]

/-- The result of `Split` is never empty, so `args[0]` exists. -/
theorem Split_ne_nil (sep : Nat) : ∀ s : Str, Split s sep ≠ [] := by
  intro s
  induction s with
  | nil => simp [Split]
  | cons c s ih =>
    simp only [Split]
    split
    · simp
    · split <;> simp

theorem Split_of_not_mem (sep : Nat) : ∀ t : Str, sep ∉ t → Split t sep = [t] := by
  intro t
  induction t with
  | nil => intro _; simp [Split]
  | cons c t ih =>
    intro h
    have hc : c ≠ sep := fun hc => h (by simp [hc])
    have ht : sep ∉ t := fun ht => h (by simp [ht])
    simp [Split, hc, ih ht]

theorem Split_append_sep (sep : Nat) (rest : Str) : ∀ t : Str, sep ∉ t →
    Split (t ++ sep :: rest) sep = t :: Split rest sep := by
  intro t
  induction t with
  | nil => intro _; simp [Split]
  | cons c t ih =>
    intro h
    have hc : c ≠ sep := fun hc => h (by simp [hc])
    have ht : sep ∉ t := fun ht => h (by simp [ht])
    simp [Split, hc, ih ht]

/-- Splitting tokens joined by the separator gives the tokens back. -/
theorem Split_Join (sep : Nat) : ∀ (toks : List Str) (tok : Str),
    (∀ t ∈ tok :: toks, sep ∉ t) → Split (Join (tok :: toks) [sep]) sep = tok :: toks := by
  intro toks
  induction toks with
  | nil =>
    intro tok h
    simpa [Join] using Split_of_not_mem sep tok (h tok (by simp))
  | cons u toks ih =>
    intro tok h
    have h1 : sep ∉ tok := h tok (by simp)
    have h2 := ih u (fun t ht => h t (List.mem_cons_of_mem _ ht))
    have h3 := Split_append_sep sep (Join (u :: toks) [sep]) tok h1
    simp only [Join, List.append_assoc, List.singleton_append]
    rw [h3, h2]

/-- The result of `Split` is a list of tokens free of the separator whose join is `s`. -/
theorem Split_spec (sep : Nat) : ∀ s : Str, ∃ tok toks,
    Split s sep = tok :: toks ∧ (∀ t ∈ tok :: toks, sep ∉ t) ∧ s = Join (tok :: toks) [sep] := by
  intro s
  induction s with
  | nil => exact ⟨[], [], by simp [Split], by simp, by simp [Join]⟩
  | cons c s ih =>
    obtain ⟨tok, toks, h1, h2, h3⟩ := ih
    by_cases hc : c = sep
    · refine ⟨[], tok :: toks, by simp [Split, hc, h1], ?_, ?_⟩
      · intro t ht
        simp only [List.mem_cons] at ht
        rcases ht with rfl | ht
        · simp
        · exact h2 t (by simpa using ht)
      · simp [Join, hc, h3]
    · refine ⟨c :: tok, toks, by simp [Split, hc, h1], ?_, ?_⟩
      · intro t ht
        simp only [List.mem_cons] at ht
        rcases ht with rfl | ht
        · have := h2 tok (by simp)
          simp only [List.mem_cons, not_or]
          exact ⟨fun h => hc h.symm, this⟩
        · exact h2 t (by simp [ht])
      · cases toks with
        | nil => simpa [Join] using h3
        | cons u toks => simpa [Join] using h3

theorem foldl_write (params : List Str) : ∀ buf : Str,
    params.foldl (fun b p => (b ++ [32]) ++ p) buf = buf ++ prefixedParams params := by
  induction params with
  | nil => intro buf; simp [prefixedParams]
  | cons p ps ih =>
    intro buf
    rw [List.foldl_cons, ih ((buf ++ [32]) ++ p)]
    simp only [prefixedParams, List.append_assoc]

/-- The closed form of the buffer built by `composeMessage`. -/
theorem composeMessage_eq (code message : Str) (params : List Str) :
    composeMessage code message params =
      code ++ prefixedParams params ++ (if message = [] then [] else [32, 58] ++ message) := by
  unfold composeMessage
  simp only [foldl_write]
  cases message with
  | nil => simp
  | cons c m => simp

theorem Join_cons_space (params : List Str) : ∀ code : Str,
    Join (code :: params) [32] = code ++ prefixedParams params := by
  induction params with
  | nil => intro code; simp [Join, prefixedParams]
  | cons p ps ih => intro code; simp [Join, prefixedParams, ih p]

theorem Index_cons_skip (c : Nat) (s sep : Str)
    (h : HasPrefix (c :: s) sep = false) :
    Index (c :: s) sep = (Index s sep).map (· + 1) := by
  rw [Index]
  simp only [h, Bool.false_eq_true, if_false]
  cases Index s sep <;> rfl

/-- Searching `" :"` skips a prefix without spaces. -/
theorem Index_marker_skip (rest : Str) : ∀ t : Str, 32 ∉ t →
    Index (t ++ rest) [32, 58] = (Index rest [32, 58]).map (· + t.length) := by
  intro t
  induction t with
  | nil => intro _; cases hi : Index rest [32, 58] <;> simp [hi]
  | cons c t ih =>
    intro h
    have hc : c ≠ 32 := fun hc => h (by simp [hc])
    have ht : 32 ∉ t := fun ht => h (by simp [ht])
    have hp : HasPrefix (c :: (t ++ rest)) [32, 58] = false := by simp [HasPrefix, hc]
    rw [List.cons_append, Index_cons_skip _ _ _ hp, ih ht]
    cases hi : Index rest [32, 58]
    · simp
    · simp only [Option.map_some', List.length_cons, Option.some.injEq]
      omega

/-- Searching `" :"` skips a space that is not followed by a colon. -/
theorem Index_marker_space (rest : Str) (h : rest.head? ≠ some 58) :
    Index (32 :: rest) [32, 58] = (Index rest [32, 58]).map (· + 1) := by
  have hp : HasPrefix (32 :: rest) [32, 58] = false := by
    cases rest with
    | nil => simp [HasPrefix]
    | cons d r =>
      have : d ≠ 58 := fun hd => h (by simp [hd])
      simp [HasPrefix, this]
  exact Index_cons_skip _ _ _ hp

theorem head?_prefixedParams_append (ps : List Str) (tail : Str)
    (h : tail.head? ≠ some 58) : (prefixedParams ps ++ tail).head? ≠ some 58 := by
  cases ps with
  | nil => simpa [prefixedParams] using h
  | cons p ps => simp [prefixedParams]

theorem Index_marker_params (tail : Str) (htail : tail.head? ≠ some 58) :
    ∀ params : List Str, (∀ p ∈ params, 32 ∉ p ∧ p.head? ≠ some 58) →
      Index (prefixedParams params ++ tail) [32, 58] =
        (Index tail [32, 58]).map (· + (prefixedParams params).length) := by
  intro params
  induction params with
  | nil => intro _; cases hi : Index tail [32, 58] <;> simp [prefixedParams, hi]
  | cons p ps ih =>
    intro h
    obtain ⟨hp1, hp2⟩ := h p (by simp)
    have ih1 := ih (fun q hq => h q (List.mem_cons_of_mem _ hq))
    have hnext : (p ++ (prefixedParams ps ++ tail)).head? ≠ some 58 := by
      cases p with
      | nil => simpa using head?_prefixedParams_append ps tail htail
      | cons d p => simpa using hp2
    have e1 : prefixedParams (p :: ps) ++ tail = 32 :: (p ++ (prefixedParams ps ++ tail)) := by
      simp [prefixedParams]
    rw [e1, Index_marker_space _ hnext, Index_marker_skip _ p hp1, ih1]
    cases hi : Index tail [32, 58] <;> simp [prefixedParams, hi]
    omega

/-! ## Lemmas on `setByLine` and `classifyCTCP` -/

theorem setMessage_of_none (e : Event) (line : Str) (h : Index line [32, 58] = none) :
    setMessage e line = some (e, line) := by
  simp [setMessage, h]

theorem setMessage_of_some (e : Event) (line : Str) (p : Nat)
    (h : Index line [32, 58] = some p) :
    setMessage e line = some ({ e with Message := line.drop (p + 2) }, line.take p) := by
  have hb := Index_bound _ _ _ h
  simp only [List.length_cons, List.length_nil] at hb
  have h1 : p + 2 ≤ line.length := by omega
  have h2 : p ≤ line.length := by omega
  simp [setMessage, h, sliceFrom, sliceTo, h1, h2]

theorem setByLine_cons_of_ne (upperMap : Str → Str) (e : Event) (c0 : Nat) (l : Str)
    (h : c0 ≠ 58) :
    setByLine upperMap e (c0 :: l) =
      (setMessage { e with Raw := c0 :: l } (c0 :: l)).bind
        (fun r => setCode upperMap r.1 r.2) := by
  simp only [setByLine, h, if_false]
  rfl

theorem setCode_of_Split (upperMap : Str → Str) (e : Event) (line a : Str) (rest : List Str)
    (h : Split line 32 = a :: rest) :
    setCode upperMap e line = some { e with Code := ToUpper upperMap a, Arguments := rest } := by
  simp [setCode, h]

/-- The event read back from a composed line, under the conditions the parser needs. -/
theorem setByLine_composeMessage (upperMap : Str → Str) (code message : Str)
    (params : List Str) (hne : code ≠ []) (hsp : 32 ∉ code) (hcol : code.head? ≠ some 58)
    (hup : ToUpper upperMap code = code)
    (hparams : ∀ p ∈ params, 32 ∉ p ∧ p.head? ≠ some 58) :
    setByLine upperMap {} (composeMessage code message params) =
      some { Raw := composeMessage code message params, Code := code,
             Arguments := params, Message := message } := by
  have hsplit : Split (code ++ prefixedParams params) 32 = code :: params := by
    rw [← Join_cons_space]
    apply Split_Join
    intro t ht
    simp only [List.mem_cons] at ht
    rcases ht with rfl | ht
    · exact hsp
    · exact (hparams t ht).1
  obtain ⟨c0, code1, rfl⟩ : ∃ c0 code1, code = c0 :: code1 := by
    cases code with
    | nil => exact absurd rfl hne
    | cons c0 code1 => exact ⟨c0, code1, rfl⟩
  have hc0 : c0 ≠ 58 := fun h => hcol (by simp [h])
  rw [composeMessage_eq]
  by_cases hm : message = []
  · subst hm
    have hidx : Index (c0 :: code1 ++ prefixedParams params) [32, 58] = none := by
      have h1 := Index_marker_skip (prefixedParams params ++ []) (c0 :: code1) hsp
      have h2 := Index_marker_params [] (by simp) params hparams
      rw [h2] at h1
      simpa [Index, HasPrefix] using h1
    simp only [if_true, List.append_nil]
    rw [List.cons_append, setByLine_cons_of_ne _ _ _ _ hc0, ← List.cons_append,
      setMessage_of_none _ _ hidx]
    simp only [Option.some_bind, setCode_of_Split _ _ _ _ _ hsplit, hup]
  · have hidx : Index (c0 :: code1 ++ prefixedParams params ++ ([32, 58] ++ message)) [32, 58]
        = some ((c0 :: code1 ++ prefixedParams params).length) := by
      have h1 := Index_marker_skip (prefixedParams params ++ ([32, 58] ++ message))
        (c0 :: code1) hsp
      have h2 := Index_marker_params ([32, 58] ++ message) (by simp) params hparams
      rw [h2] at h1
      rw [List.append_assoc, h1]
      simp [Index, HasPrefix]
      omega
    simp only [hm, if_false]
    have e1 : c0 :: code1 ++ prefixedParams params ++ ([32, 58] ++ message) =
        c0 :: (code1 ++ prefixedParams params ++ ([32, 58] ++ message)) := by simp
    rw [e1, setByLine_cons_of_ne _ _ _ _ hc0, ← e1, setMessage_of_some _ _ _ hidx]
    have e2 : List.drop ((c0 :: code1 ++ prefixedParams params).length + 2)
        (c0 :: code1 ++ prefixedParams params ++ ([32, 58] ++ message)) = message := by
      have : (c0 :: code1 ++ prefixedParams params).length + 2 =
          (c0 :: code1 ++ prefixedParams params ++ [32, 58]).length := by
        simp only [List.length_append, List.length_cons, List.length_nil]
      rw [this, ← List.append_assoc, List.drop_left]
    have e3 : List.take ((c0 :: code1 ++ prefixedParams params).length)
        (c0 :: code1 ++ prefixedParams params ++ ([32, 58] ++ message)) =
        c0 :: code1 ++ prefixedParams params := List.take_left _ _
    simp only [Option.some_bind, e2, e3, setCode_of_Split _ _ _ _ _ hsplit, hup]

theorem HasPrefix_byte (c d : Nat) (s : Str) : HasPrefix (d :: s) [c] = decide (d = c) := by
  by_cases h : d = c <;> simp [HasPrefix, h]

theorem Index_byte_append (c : Nat) (post : Str) : ∀ pre : Str, c ∉ pre →
    Index (pre ++ c :: post) [c] = some pre.length := by
  intro pre
  induction pre with
  | nil => intro _; simp [Index, HasPrefix]
  | cons a pre ih =>
    intro h
    have ha : a ≠ c := fun ha => h (by simp [ha])
    have hp : c ∉ pre := fun hp => h (by simp [hp])
    have hpre : HasPrefix (a :: (pre ++ c :: post)) [c] = false := by
      simp [HasPrefix_byte, ha]
    rw [List.cons_append, Index_cons_skip _ _ _ hpre, ih hp]
    rfl

theorem Index_byte_none (c : Nat) : ∀ s : Str, c ∉ s → Index s [c] = none := by
  intro s
  induction s with
  | nil => intro _; simp [Index, HasPrefix]
  | cons a s ih =>
    intro h
    have ha : a ≠ c := fun ha => h (by simp [ha])
    have hp : c ∉ s := fun hp => h (by simp [hp])
    have hpre : HasPrefix (a :: s) [c] = false := by simp [HasPrefix_byte, ha]
    rw [Index_cons_skip _ _ _ hpre, ih hp]
    rfl

theorem Index_byte_some (c : Nat) : ∀ (s : Str) (i : Nat), Index s [c] = some i →
    c ∉ s.take i ∧ s = s.take i ++ c :: s.drop (i + 1) := by
  intro s
  induction s with
  | nil => intro i h; simp [Index, HasPrefix] at h
  | cons a s ih =>
    intro i h
    by_cases ha : a = c
    · subst ha
      have : Index (a :: s) [a] = some 0 := by simp [Index, HasPrefix]
      rw [this] at h
      cases h
      simp
    · have hpre : HasPrefix (a :: s) [c] = false := by simp [HasPrefix_byte, ha]
      rw [Index_cons_skip _ _ _ hpre] at h
      cases hj : Index s [c] with
      | none => rw [hj] at h; cases h
      | some j =>
        rw [hj] at h
        cases h
        obtain ⟨h1, h2⟩ := ih j hj
        refine ⟨?_, ?_⟩
        · simp only [List.take_succ_cons, List.mem_cons, not_or]
          exact ⟨fun h => ha h.symm, h1⟩
        · simp only [List.take_succ_cons, List.drop_succ_cons, List.cons_append,
            List.cons.injEq, true_and]
          exact h2

/-- The event after `setNickUserHost` differs from the one before in `Nick`, `User` and
`Host` at most, and the statement does not panic. -/
theorem setNickUserHost_frame (e : Event) : ∃ e1, setNickUserHost e = some e1 ∧
    e1.Raw = e.Raw ∧ e1.Source = e.Source ∧ e1.Code = e.Code ∧
    e1.Arguments = e.Arguments ∧ e1.Message = e.Message := by
  unfold setNickUserHost
  split
  · rename_i i j hi hj
    have bi := Index_bound _ _ _ hi
    have bj := Index_bound _ _ _ hj
    simp only [List.length_cons, List.length_nil] at bi bj
    by_cases hij : i < j
    · have h1 : i ≤ e.Source.length := by omega
      have h2 : i + 1 ≤ j ∧ j ≤ e.Source.length := by omega
      have h3 : j + 1 ≤ e.Source.length := by omega
      simp [hij, sliceTo, slice, sliceFrom, h1, h2, h3]
    · simp [hij]
  · simp

/-- A source that reads `<nick>!<user>@<host>` is taken apart into its three parts. -/
theorem setNickUserHost_match (e : Event) (nick user host : Str)
    (h : IsHostmask e.Source nick user host) :
    setNickUserHost e = some { e with Nick := nick, User := user, Host := host } := by
  obtain ⟨hsrc, h1, h2, h3⟩ := h
  have hi : Index e.Source [33] = some nick.length := by
    rw [hsrc, List.append_assoc]
    exact Index_byte_append 33 _ nick h1
  have hj : Index e.Source [64] = some (nick ++ 33 :: user).length := by
    rw [hsrc]
    apply Index_byte_append 64 host (nick ++ 33 :: user)
    simp only [List.mem_append, List.mem_cons, not_or]
    exact ⟨h2, by decide, h3⟩
  have hlt : nick.length < (nick ++ 33 :: user).length := by simp
  have hlen : e.Source.length = nick.length + 1 + user.length + 1 + host.length := by
    rw [hsrc]; simp; omega
  have hl2 : (nick ++ 33 :: user).length = nick.length + 1 + user.length := by simp; omega
  have t1 : List.take nick.length e.Source = nick := by
    rw [hsrc, List.append_assoc, List.take_left]
  have t2 : List.drop (nick.length + 1) (List.take (nick ++ 33 :: user).length e.Source)
      = user := by
    rw [hsrc, List.take_left]
    have : nick.length + 1 = (nick ++ [33]).length := by simp
    rw [this]
    have e2 : nick ++ 33 :: user = (nick ++ [33]) ++ user := by simp
    rw [e2, List.drop_left]
  have t3 : List.drop ((nick ++ 33 :: user).length + 1) e.Source = host := by
    have : (nick ++ 33 :: user).length + 1 = (nick ++ 33 :: user ++ [64]).length := by
      simp only [List.length_append, List.length_cons, List.length_nil]
    rw [this, hsrc]
    have e2 : nick ++ 33 :: user ++ 64 :: host = (nick ++ 33 :: user ++ [64]) ++ host := by simp
    rw [e2, List.drop_left]
  unfold setNickUserHost
  rw [hi, hj]
  simp only [hlt, if_true, sliceTo, slice, sliceFrom]
  have c1 : nick.length ≤ e.Source.length := by omega
  have c2 : nick.length + 1 ≤ (nick ++ 33 :: user).length ∧
      (nick ++ 33 :: user).length ≤ e.Source.length := by omega
  have c3 : (nick ++ 33 :: user).length + 1 ≤ e.Source.length := by omega
  simp only [c1, c2, c3, if_true, t1, t2, t3]
  rfl

/-- A source that does not read `<nick>!<user>@<host>` leaves the event as it is. -/
theorem setNickUserHost_nomatch (e : Event)
    (h : ¬ ∃ nick user host, IsHostmask e.Source nick user host) :
    setNickUserHost e = some e := by
  unfold setNickUserHost
  split
  · rename_i i j hi hj
    by_cases hij : i < j
    · exfalso
      apply h
      obtain ⟨a1, a2⟩ := Index_byte_some 33 _ _ hi
      obtain ⟨b1, b2⟩ := Index_byte_some 64 _ _ hj
      have bj := Index_bound _ _ _ hj
      simp only [List.length_cons, List.length_nil] at bj
      refine ⟨e.Source.take i, (e.Source.take j).drop (i + 1), e.Source.drop (j + 1), ?_,
        a1, ?_, ?_⟩
      · have k1 : e.Source.take j = e.Source.take i ++ 33 :: (e.Source.take j).drop (i + 1) := by
          have := congrArg (List.take j) a2
          rw [List.take_append_eq_append_take] at this
          simp only [List.take_take, List.length_take] at this
          have m1 : min j i = i := by omega
          have m2 : min i e.Source.length = i := by omega
          rw [m1, m2] at this
          have m3 : j - i = (j - i - 1) + 1 := by omega
          rw [m3, List.take_succ_cons] at this
          rw [this]
          congr 1
          rw [List.drop_append_eq_append_drop]
          simp only [List.length_take, m2]
          have m4 : i + 1 - i = 1 := by omega
          rw [m4]
          have m5 : List.drop (i + 1) (List.take i e.Source) = [] := by
            apply List.drop_eq_nil_of_le
            simp only [List.length_take]; omega
          rw [m5]
          simp
        have b3 := b2
        rw [k1] at b3
        exact b3
      · intro hm
        apply b1
        have : e.Source.take i = (e.Source.take j).take i := by
          rw [List.take_take]
          congr 1
          omega
        rw [this] at hm
        exact List.mem_of_mem_take hm
      · intro hm
        exact b1 (List.mem_of_mem_drop hm)
    · simp [hij]
  · rfl

theorem setSource_of_space (e : Event) (src rest : Str) (h : 32 ∉ src) :
    setSource e (58 :: src ++ 32 :: rest) =
      (setNickUserHost { e with Source := src }).bind (fun e1 => some (e1, rest)) := by
  have hi : Index (58 :: src ++ 32 :: rest) [32] = some (58 :: src).length := by
    apply Index_byte_append 32 rest (58 :: src)
    simp only [List.mem_cons, not_or]
    exact ⟨by decide, h⟩
  have hlen : (58 :: src ++ 32 :: rest).length = src.length + rest.length + 2 := by
    simp; omega
  have c1 : 1 ≤ (58 :: src).length ∧ (58 :: src).length ≤ (58 :: src ++ 32 :: rest).length := by
    simp
  have c2 : (58 :: src).length + 1 ≤ (58 :: src ++ 32 :: rest).length := by
    simp
  have t1 : List.drop 1 (List.take (58 :: src).length (58 :: src ++ 32 :: rest)) = src := by
    rw [List.take_left]; rfl
  have t2 : List.drop ((58 :: src).length + 1) (58 :: src ++ 32 :: rest) = rest := by
    have e1 : (58 :: src).length + 1 = (58 :: src ++ [32]).length := by simp
    have e2 : 58 :: src ++ 32 :: rest = (58 :: src ++ [32]) ++ rest := by simp
    rw [e1, e2, List.drop_left]
  unfold setSource
  rw [hi]
  simp only [slice, sliceFrom, c1, c2, and_self, if_true, t1, t2]
  rfl

theorem setSource_of_no_space (e : Event) (line : Str) (h : 32 ∉ line) :
    setSource e line = some (e, line) := by
  simp [setSource, Index_byte_none 32 line h]

theorem setByLine_cons_colon (upperMap : Str → Str) (e : Event) (l : Str) :
    setByLine upperMap e (58 :: l) =
      (setSource { e with Raw := 58 :: l } (58 :: l)).bind (fun r =>
        (setMessage r.1 r.2).bind (fun r2 => setCode upperMap r2.1 r2.2)) := by
  simp only [setByLine, if_true]
  rfl

theorem setByLine_of_space (upperMap : Str → Str) (e : Event) (src rest : Str)
    (h : 32 ∉ src) :
    setByLine upperMap e (58 :: src ++ 32 :: rest) =
      (setNickUserHost { e with Raw := 58 :: src ++ 32 :: rest, Source := src }).bind
        (fun e1 => (setMessage e1 rest).bind (fun r2 => setCode upperMap r2.1 r2.2)) := by
  rw [List.cons_append, setByLine_cons_colon, ← List.cons_append, setSource_of_space _ _ _ h]
  cases setNickUserHost { e with Raw := 58 :: src ++ 32 :: rest, Source := src } <;> rfl

theorem setByLine_of_no_source (upperMap : Str → Str) (e : Event) (line : Str)
    (hne : line ≠ []) (h : ¬ (line.head? = some 58 ∧ 32 ∈ line)) :
    setByLine upperMap e line =
      (setMessage { e with Raw := line } line).bind
        (fun r2 => setCode upperMap r2.1 r2.2) := by
  cases line with
  | nil => exact absurd rfl hne
  | cons c0 l =>
    by_cases hc : c0 = 58
    · subst hc
      have hsp : 32 ∉ (58 :: l) := fun hm => h ⟨rfl, hm⟩
      rw [setByLine_cons_colon, setSource_of_no_space _ _ hsp]
      rfl
    · exact setByLine_cons_of_ne upperMap e c0 l hc

/-- What the last two parts of `Event.setByLine` do to an event without message. -/
theorem setMessage_setCode_spec (upperMap : Str → Str) (e1 : Event) (rem : Str)
    (hmsg : e1.Message = []) :
    ∃ e, (setMessage e1 rem).bind (fun r => setCode upperMap r.1 r.2) = some e ∧
      e.Raw = e1.Raw ∧ e.Source = e1.Source ∧ e.Nick = e1.Nick ∧ e.User = e1.User ∧
      e.Host = e1.Host ∧
      (∀ pre post, FirstOccurrence [32, 58] rem pre post →
        e.Message = post ∧ HeadTokens upperMap pre e) ∧
      (¬ [32, 58] <:+: rem → e.Message = [] ∧ HeadTokens upperMap rem e) := by
  cases hi : Index rem [32, 58] with
  | none =>
    obtain ⟨tok, toks, s1, s2, s3⟩ := Split_spec 32 rem
    refine ⟨{ e1 with Code := ToUpper upperMap tok, Arguments := toks }, ?_, rfl, rfl, rfl,
      rfl, rfl, ?_, ?_⟩
    · rw [setMessage_of_none _ _ hi]
      simp only [Option.some_bind, setCode_of_Split _ _ _ _ _ s1]
    · rintro pre post ⟨hocc, _⟩
      exact absurd hocc (Index_none _ _ hi pre post)
    · intro _
      exact ⟨hmsg, tok, toks, s2, s3, rfl, rfl⟩
  | some p =>
    obtain ⟨tok, toks, s1, s2, s3⟩ := Split_spec 32 (rem.take p)
    refine ⟨{ e1 with Message := rem.drop (p + 2), Code := ToUpper upperMap tok, Arguments := toks },
      ?_, rfl, rfl, rfl, rfl, rfl, ?_, ?_⟩
    · rw [setMessage_of_some _ _ _ hi]
      simp only [Option.some_bind, setCode_of_Split _ _ _ _ _ s1]
    · rintro pre post ⟨hocc, hfirst⟩
      have hp := Index_of_first _ _ _ _ hocc hfirst
      rw [hi] at hp
      cases hp
      have t1 : List.take pre.length rem = pre := by
        rw [hocc, List.append_assoc, List.take_left]
      have t2 : List.drop (pre.length + 2) rem = post := by
        have : pre.length + 2 = (pre ++ [32, 58]).length := by simp
        rw [this, hocc, List.drop_left]
      rw [t1] at s3
      exact ⟨t2, tok, toks, s2, s3, rfl, rfl⟩
    · intro hno
      exfalso
      apply hno
      obtain ⟨⟨post, hpost⟩, _⟩ := Index_some _ _ _ hi
      exact ⟨rem.take p, post, hpost.symm⟩

/-- The method `setByLine` returns an event on every non-empty line. -/
theorem setByLine_isSome (upperMap : Str → Str) (e : Event) (line : Str) (hne : line ≠ []) :
    ∃ e1, setByLine upperMap e line = some e1 := by
  have hfin : ∀ (e2 : Event) (rem : Str),
      ∃ e3, (setMessage e2 rem).bind (fun r => setCode upperMap r.1 r.2) = some e3 := by
    intro e2 rem
    cases hi : Index rem [32, 58] with
    | none =>
      obtain ⟨tok, toks, s1, _, _⟩ := Split_spec 32 rem
      rw [setMessage_of_none _ _ hi]
      simp only [Option.some_bind, setCode_of_Split _ _ _ _ _ s1]
      exact ⟨_, rfl⟩
    | some p =>
      obtain ⟨tok, toks, s1, _, _⟩ := Split_spec 32 (rem.take p)
      rw [setMessage_of_some _ _ _ hi]
      simp only [Option.some_bind, setCode_of_Split _ _ _ _ _ s1]
      exact ⟨_, rfl⟩
  by_cases h : line.head? = some 58 ∧ 32 ∈ line
  · obtain ⟨h1, h2⟩ := h
    cases line with
    | nil => exact absurd rfl hne
    | cons c0 l =>
      simp only [List.head?_cons, Option.some.injEq] at h1
      subst h1
      have h3 : 32 ∈ l := by simpa using h2
      obtain ⟨src, rest, hl, hsrc⟩ := List.eq_append_cons_of_mem h3
      subst hl
      rw [← List.cons_append, setByLine_of_space _ _ _ _ hsrc]
      obtain ⟨e1, he1, _⟩ := setNickUserHost_frame
        { e with Raw := 58 :: src ++ 32 :: rest, Source := src }
      rw [he1]
      exact hfin e1 rest
  · rw [setByLine_of_no_source _ _ _ hne h]
    exact hfin _ _

theorem LastIndex_append_byte (c : Nat) : ∀ s : Str, LastIndex (s ++ [c]) [c] = some s.length := by
  intro s
  induction s with
  | nil => simp [LastIndex, HasPrefix]
  | cons a s ih => simp [LastIndex, ih]

/-- The result of the classification step on a message wrapped in `\x01`. -/
theorem classifyCTCP_of_wrapped (e : Event) (payload : Str) (hcode : e.Code = PRIVMSG)
    (hmsg : e.Message = 1 :: payload ++ [1]) :
    classifyCTCP e = some
      (if payload = VERSION then { e with Code := CTCP_VERSION, Message := payload }
       else if payload = TIME then { e with Code := CTCP_TIME, Message := payload }
       else if payload.length ≥ 4 ∧ payload.take 4 = PING then
         { e with Code := CTCP_PING, Message := payload }
       else if payload = USERINFO then { e with Code := CTCP_USERINFO, Message := payload }
       else if payload = CLIENTINFO then { e with Code := CTCP_CLIENTINFO, Message := payload }
       else { e with Code := CTCP, Message := payload }) := by
  have hcond : e.Code = PRIVMSG ∧ e.Message.length > 0 ∧ e.Message.head? = some 1 := by
    rw [hmsg]
    exact ⟨hcode, by simp, by simp⟩
  have hlast : LastIndex e.Message [1] = some (payload.length + 1) := by
    rw [hmsg]
    exact LastIndex_append_byte 1 (1 :: payload)
  have hslice : slice e.Message 1 (payload.length + 1) = some payload := by
    have hb : 1 ≤ payload.length + 1 ∧ payload.length + 1 ≤ e.Message.length := by
      rw [hmsg]; simp
    have ht : List.drop 1 (List.take (payload.length + 1) e.Message) = payload := by
      rw [hmsg]
      have : payload.length + 1 = (1 :: payload).length := by simp
      rw [this, List.take_left]
      rfl
    simp only [slice, hb, and_self, if_true, ht]
  have hping : (payload.length ≥ 4 ∧ sliceTo payload 4 = some PING) ↔
      (payload.length ≥ 4 ∧ payload.take 4 = PING) := by
    constructor
    · rintro ⟨h1, h2⟩
      have h1' : 4 ≤ payload.length := h1
      simp only [sliceTo, h1', if_true, Option.some.injEq] at h2
      exact ⟨h1, h2⟩
    · rintro ⟨h1, h2⟩
      have h1' : 4 ≤ payload.length := h1
      exact ⟨h1, by simp only [sliceTo, h1', if_true, h2]⟩
  unfold classifyCTCP
  rw [if_pos hcond]
  simp only [hlast, hslice, Option.bind_eq_bind, Option.some_bind, Option.pure_def, hping]
  by_cases h1 : payload = VERSION
  · simp only [if_pos h1]
  by_cases h2 : payload = TIME
  · simp only [if_neg h1, if_pos h2]
  by_cases h3 : payload.length ≥ 4 ∧ payload.take 4 = PING
  · simp only [if_neg h1, if_neg h2, if_pos h3]
  by_cases h4 : payload = USERINFO
  · simp only [if_neg h1, if_neg h2, if_neg h3, if_pos h4]
  by_cases h5 : payload = CLIENTINFO
  · simp only [if_neg h1, if_neg h2, if_neg h3, if_neg h4, if_pos h5]
  · simp only [if_neg h1, if_neg h2, if_neg h3, if_neg h4, if_neg h5]

/-- The handler of `RPL_WELCOME` panics on an event without arguments. -/
theorem welcomeHandler_of_no_argument (c : Client) (e : Event) (h : e.Arguments = []) :
    welcomeHandler c e = none := by
  simp [welcomeHandler, h]

/-- The event left by the last two parts of `Event.setByLine` on a composed line. -/
theorem setMessage_setCode_composeMessage (upperMap : Str → Str) (e1 : Event)
    (code message : Str) (params : List Str) (hsp : 32 ∉ code)
    (hup : ToUpper upperMap code = code)
    (hparams : ∀ p ∈ params, 32 ∉ p ∧ p.head? ≠ some 58) (hm : message ≠ []) :
    (setMessage e1 (composeMessage code message params)).bind
        (fun r => setCode upperMap r.1 r.2) =
      some { e1 with Code := code, Arguments := params, Message := message } := by
  have hsplit : Split (code ++ prefixedParams params) 32 = code :: params := by
    rw [← Join_cons_space]
    apply Split_Join
    intro t ht
    simp only [List.mem_cons] at ht
    rcases ht with rfl | ht
    · exact hsp
    · exact (hparams t ht).1
  have hidx : Index (code ++ prefixedParams params ++ ([32, 58] ++ message)) [32, 58]
      = some ((code ++ prefixedParams params).length) := by
    have h1 := Index_marker_skip (prefixedParams params ++ ([32, 58] ++ message)) code hsp
    have h2 := Index_marker_params ([32, 58] ++ message) (by simp) params hparams
    rw [h2] at h1
    rw [List.append_assoc, h1]
    simp [Index, HasPrefix]
    omega
  have e2 : List.drop ((code ++ prefixedParams params).length + 2)
      (code ++ prefixedParams params ++ ([32, 58] ++ message)) = message := by
    have : (code ++ prefixedParams params).length + 2 =
        (code ++ prefixedParams params ++ [32, 58]).length := by
      simp only [List.length_append, List.length_cons, List.length_nil]
    rw [this, ← List.append_assoc, List.drop_left]
  have e3 : List.take ((code ++ prefixedParams params).length)
      (code ++ prefixedParams params ++ ([32, 58] ++ message)) =
      code ++ prefixedParams params := List.take_left _ _
  rw [composeMessage_eq]
  simp only [hm, if_false]
  rw [setMessage_of_some _ _ _ hidx]
  simp only [Option.some_bind, e2, e3, setCode_of_Split _ _ _ _ _ hsplit, hup]

theorem LastIndex_byte_none (c : Nat) : ∀ s : Str, c ∉ s → LastIndex s [c] = none := by
  intro s
  induction s with
  | nil => intro _; simp [LastIndex, HasPrefix]
  | cons a s ih =>
    intro h
    have ha : a ≠ c := fun ha => h (by simp [ha])
    have hp : c ∉ s := fun hp => h (by simp [hp])
    simp [LastIndex, ih hp, HasPrefix, ha]

/-- The command that `Client.Command` sends for a code and one parameter. -/
theorem composeMessage_one_param (code p : Str) :
    composeMessage code [] [p] = code ++ [32] ++ p := by
  simp [composeMessage_eq, prefixedParams]

/-- The classification step leaves an event alone when its code is not `PRIVMSG`. -/
theorem classifyCTCP_of_code_ne (e : Event) (h : e.Code ≠ PRIVMSG) :
    classifyCTCP e = some e := by
  unfold classifyCTCP
  rw [if_neg (fun hc => h hc.1)]
  rfl

/-- The event parsed from `PING :<payload>`. -/
theorem setByLine_ping_trailing (upperMap : Str → Str) (x : Str) :
    setByLine upperMap {} (PING ++ [32, 58] ++ x) =
      some { Raw := PING ++ [32, 58] ++ x, Code := PING, Message := x } := by
  have hsp : 32 ∉ PING := by decide
  have hidx : Index (PING ++ [32, 58] ++ x) [32, 58] = some 4 := by
    have h1 := Index_marker_skip ([32, 58] ++ x) PING hsp
    rw [List.append_assoc, h1]
    simp [Index, HasPrefix, PING]
  have hne : PING ++ [32, 58] ++ x ≠ [] := by simp [PING]
  have hns : ¬ ((PING ++ [32, 58] ++ x).head? = some 58 ∧ 32 ∈ PING ++ [32, 58] ++ x) := by
    rintro ⟨h, _⟩
    simp [PING] at h
  rw [setByLine_of_no_source _ _ _ hne hns, setMessage_of_some _ _ _ hidx]
  have t1 : List.take 4 (PING ++ [32, 58] ++ x) = PING := by
    rw [List.append_assoc]
    exact List.take_left PING _
  have t2 : List.drop (4 + 2) (PING ++ [32, 58] ++ x) = x := by
    simp [PING]
  simp only [Option.some_bind, t1, t2,
    setCode_of_Split _ _ _ _ _ (Split_of_not_mem 32 PING hsp)]
  rfl

theorem LastIndex_byte_of_mem (c : Nat) : ∀ s : Str, c ∈ s →
    ∃ i, LastIndex s [c] = some i ∧ i < s.length := by
  intro s
  induction s with
  | nil => intro h; simp at h
  | cons a s ih =>
    intro h
    by_cases hs : c ∈ s
    · obtain ⟨i, hi, hlt⟩ := ih hs
      exact ⟨i + 1, by simp [LastIndex, hi], by simpa using hlt⟩
    · have ha : a = c := by
        simp only [List.mem_cons] at h
        rcases h with h | h
        · exact h.symm
        · exact absurd h hs
      subst ha
      exact ⟨0, by simp [LastIndex, LastIndex_byte_none a s hs, HasPrefix], by simp⟩

/-- The classification step panics on a `PRIVMSG` whose message begins with `\x01` and
holds no other `\x01`. -/
theorem classifyCTCP_of_lone_delimiter (e : Event) (rest : Str) (hcode : e.Code = PRIVMSG)
    (hmsg : e.Message = 1 :: rest) (hrest : 1 ∉ rest) :
    LastIndex e.Message [1] = some 0 ∧ classifyCTCP e = none := by
  have hlast : LastIndex e.Message [1] = some 0 := by
    rw [hmsg]
    simp [LastIndex, LastIndex_byte_none 1 rest hrest, HasPrefix]
  have hcond : e.Code = PRIVMSG ∧ e.Message.length > 0 ∧ e.Message.head? = some 1 := by
    rw [hmsg]
    exact ⟨hcode, by simp, by simp⟩
  refine ⟨hlast, ?_⟩
  unfold classifyCTCP
  rw [if_pos hcond]
  simp [hlast, slice]

/-- The classification step returns an event whenever the message holds a second `\x01`. -/
theorem classifyCTCP_of_second_delimiter (e : Event) (rest : Str)
    (hmsg : e.Message = 1 :: rest) (hrest : 1 ∈ rest) :
    ∃ e1, classifyCTCP e = some e1 := by
  obtain ⟨i, hi, hlt⟩ := LastIndex_byte_of_mem 1 rest hrest
  have hlast : LastIndex e.Message [1] = some (i + 1) := by
    rw [hmsg]
    simp [LastIndex, hi]
  have hb : 1 ≤ i + 1 ∧ i + 1 ≤ e.Message.length := by
    rw [hmsg]
    simp only [List.length_cons]
    omega
  unfold classifyCTCP
  split
  · simp only [hlast, slice, hb, and_self, if_true, Option.bind_eq_bind, Option.some_bind,
      Option.pure_def]
    split
    · exact ⟨_, rfl⟩
    split
    · exact ⟨_, rfl⟩
    split
    · exact ⟨_, rfl⟩
    split
    · exact ⟨_, rfl⟩
    split
    · exact ⟨_, rfl⟩
    · exact ⟨_, rfl⟩
  · exact ⟨_, rfl⟩

theorem Shutdown.done_cases (s : Shutdown) (h : s.Inv) :
    s.done = DisconnectProgram.take 0 ∨ s.done = DisconnectProgram.take 1 ∨
    s.done = DisconnectProgram.take 2 ∨ s.done = DisconnectProgram.take 3 ∨
    s.done = DisconnectProgram.take 4 ∨ s.done = DisconnectProgram.take 5 ∨
    s.done = DisconnectProgram.take 6 ∨ s.done = DisconnectProgram.take 7 ∨
    s.done = DisconnectProgram.take 8 := by
  have h1 := h.1
  have hlen : s.done.length ≤ 8 := by
    have := congrArg List.length h1
    simp only [List.length_take, DisconnectProgram, List.length_cons, List.length_nil] at this
    omega
  generalize s.done.length = n at h1 hlen
  interval_cases n <;> simp [h1]

theorem Shutdown.step_inv (s : Shutdown) (m : Move) (h : s.Inv) : (s.step m).Inv := by
  have hc := s.done_cases h
  obtain ⟨r, w, p, d⟩ := s
  simp only at hc
  rcases hc with hc | hc | hc | hc | hc | hc | hc | hc | hc <;> subst hc <;> revert h <;>
    cases m <;> (try rename_i l; cases l) <;> cases r <;> cases w <;> cases p <;> decide

theorem Shutdown.run_inv (ms : List Move) : (Shutdown.run ms).Inv := by
  have key : ∀ (ms : List Move) (s : Shutdown), s.Inv → (ms.foldl Shutdown.step s).Inv := by
    intro ms
    induction ms with
    | nil => intro s h; exact h
    | cons m ms ih => intro s h; exact ih _ (Shutdown.step_inv s m h)
  exact key ms {} (by decide)

/-- Searching `" :"` in a string that holds none, followed by `" :"`, finds the end of
the string. -/
theorem Index_marker_append (msg : Str) : ∀ t : Str, ¬ [32, 58] <:+: t →
    Index (t ++ 32 :: 58 :: msg) [32, 58] = some t.length := by
  intro t
  induction t with
  | nil => intro _; simp [Index, HasPrefix]
  | cons c t ih =>
    intro h
    have ht : ¬ [32, 58] <:+: t := fun hi => h (hi.trans (List.suffix_cons c t).isInfix)
    have hp : HasPrefix (c :: (t ++ 32 :: 58 :: msg)) [32, 58] = false := by
      by_cases hc : c = 32
      · subst hc
        cases t with
        | nil => simp [HasPrefix]
        | cons d t =>
          have hd : d ≠ 58 := by
            intro hd
            subst hd
            exact h ⟨[], t, by simp⟩
          simp [HasPrefix, hd]
      · simp [HasPrefix, hc]
    rw [List.cons_append, Index_cons_skip _ _ _ hp, ih ht]
    rfl

/-- The event parsed from the line `:<nick>!<user>@<host> PRIVMSG <target> :<message>`
has the nick as `Nick`, the code `PRIVMSG` and the message as `Message`. -/
theorem setByLine_privmsg (upperMap : Str → Str) (nick user host target message : Str)
    (hn : 32 ∉ nick ∧ 33 ∉ nick ∧ 64 ∉ nick) (hu : 32 ∉ user) (hh : 32 ∉ host)
    (ht : target.head? ≠ some 58 ∧ ¬ [32, 58] <:+: target) :
    ∃ e, setByLine upperMap {} (58 :: (nick ++ 33 :: user ++ 64 :: host) ++
        32 :: (PRIVMSG ++ [32] ++ target ++ [32, 58] ++ message)) = some e ∧
      e.Nick = nick ∧ e.Code = PRIVMSG ∧ e.Message = message := by
  have hsrc : 32 ∉ nick ++ 33 :: user ++ 64 :: host := by
    simp only [List.mem_append, List.mem_cons, not_or]
    exact ⟨⟨hn.1, by decide, hu⟩, by decide, hh⟩
  obtain ⟨u1, h1, huh, hu1⟩ := List.eq_append_cons_of_mem
    (show (64 : Nat) ∈ user ++ 64 :: host by simp)
  have hmask : IsHostmask (nick ++ 33 :: user ++ 64 :: host) nick u1 h1 := by
    refine ⟨?_, hn.2.1, hn.2.2, hu1⟩
    have : nick ++ 33 :: user ++ 64 :: host = nick ++ 33 :: (user ++ 64 :: host) := by simp
    rw [this, huh]
    simp
  have hidx : Index (PRIVMSG ++ [32] ++ target ++ [32, 58] ++ message) [32, 58] =
      some (PRIVMSG ++ [32] ++ target).length := by
    have e1 : PRIVMSG ++ [32] ++ target ++ [32, 58] ++ message =
        PRIVMSG ++ (32 :: (target ++ 32 :: 58 :: message)) := by simp
    have hhead : (target ++ 32 :: 58 :: message).head? ≠ some 58 := by
      cases target with
      | nil => simp
      | cons d t => simpa using ht.1
    rw [e1, Index_marker_skip _ PRIVMSG (by decide), Index_marker_space _ hhead,
      Index_marker_append message target ht.2]
    simp [PRIVMSG]
  have t1 : List.take (PRIVMSG ++ [32] ++ target).length
      (PRIVMSG ++ [32] ++ target ++ [32, 58] ++ message) = PRIVMSG ++ [32] ++ target := by
    rw [List.append_assoc (PRIVMSG ++ [32] ++ target)]
    exact List.take_left _ _
  have t2 : List.drop ((PRIVMSG ++ [32] ++ target).length + 2)
      (PRIVMSG ++ [32] ++ target ++ [32, 58] ++ message) = message := by
    have : (PRIVMSG ++ [32] ++ target).length + 2 =
        (PRIVMSG ++ [32] ++ target ++ [32, 58]).length := by
      simp only [List.length_append, List.length_cons, List.length_nil]
    rw [this, List.drop_left]
  have hsplit : Split (PRIVMSG ++ [32] ++ target) 32 = PRIVMSG :: Split target 32 := by
    have := Split_append_sep 32 target PRIVMSG (by decide)
    simpa using this
  have hparse : setByLine upperMap {} (58 :: (nick ++ 33 :: user ++ 64 :: host) ++
      32 :: (PRIVMSG ++ [32] ++ target ++ [32, 58] ++ message)) =
      some { Raw := 58 :: (nick ++ 33 :: user ++ 64 :: host) ++
               32 :: (PRIVMSG ++ [32] ++ target ++ [32, 58] ++ message),
             Source := nick ++ 33 :: user ++ 64 :: host, Nick := nick, User := u1, Host := h1,
             Code := ToUpper upperMap PRIVMSG, Arguments := Split target 32,
             Message := message } := by
    rw [setByLine_of_space _ _ _ _ hsrc, setNickUserHost_match _ nick u1 h1 hmask]
    simp only [Option.some_bind]
    rw [setMessage_of_some _ _ _ hidx]
    simp only [Option.some_bind, t1, t2, setCode_of_Split _ _ _ _ _ hsplit]
  exact ⟨_, hparse, rfl, rfl, rfl⟩

/-! ## The claims -/

/-- C1 (counterexamples): the round trip as stated fails although no parameter holds a
space and the message holds no `" :"`: for the lower-case code `join`; for the parameter
`:x` after the code `A`; for the code `A B`; for the code `:A` with the message `m`; and
for the empty code with no parameter and no message, where parsing panics. -/
theorem roundTrip_counterexample :
    ((∀ p ∈ ([] : List Str), 32 ∉ p) ∧ ¬ [32, 58] <:+: ([] : Str) ∧
      ¬ RoundTrips (fun s => s) [106, 111, 105, 110] [] []) ∧
    ((∀ p ∈ ([[58, 120]] : List Str), 32 ∉ p) ∧ ¬ [32, 58] <:+: ([] : Str) ∧
      ¬ RoundTrips (fun s => s) [65] [] [[58, 120]]) ∧
    ((∀ p ∈ ([] : List Str), 32 ∉ p) ∧ ¬ [32, 58] <:+: ([] : Str) ∧
      ¬ RoundTrips (fun s => s) [65, 32, 66] [] []) ∧
    ((∀ p ∈ ([] : List Str), 32 ∉ p) ∧ ¬ [32, 58] <:+: ([109] : Str) ∧
      ¬ RoundTrips (fun s => s) [58, 65] [109] []) ∧
    ((∀ p ∈ ([] : List Str), 32 ∉ p) ∧ ¬ [32, 58] <:+: ([] : Str) ∧
      ¬ RoundTrips (fun s => s) [] [] []) := by
  refine ⟨⟨by decide, by decide, ?_⟩, ⟨by decide, by decide, ?_⟩, ⟨by decide, by decide, ?_⟩,
    ⟨by decide, by decide, ?_⟩, ⟨by decide, by decide, ?_⟩⟩
  · rintro ⟨e, he, hc, _, _⟩
    have h : setByLine (fun s => s) {} (composeMessage [106, 111, 105, 110] [] []) =
        some { Raw := [106, 111, 105, 110], Code := [74, 79, 73, 78] } := by decide
    rw [h] at he
    cases he
    revert hc
    decide
  · rintro ⟨e, he, _, ha, _⟩
    have h : setByLine (fun s => s) {} (composeMessage [65] [] [[58, 120]]) =
        some { Raw := [65, 32, 58, 120], Code := [65], Message := [120] } := by decide
    rw [h] at he
    cases he
    revert ha
    decide
  · rintro ⟨e, he, hc, _, _⟩
    have h : setByLine (fun s => s) {} (composeMessage [65, 32, 66] [] []) =
        some { Raw := [65, 32, 66], Code := [65], Arguments := [[66]] } := by decide
    rw [h] at he
    cases he
    revert hc
    decide
  · rintro ⟨e, he, hc, _, _⟩
    have h : setByLine (fun s => s) {} (composeMessage [58, 65] [109] []) =
        some { Raw := [58, 65, 32, 58, 109], Source := [65], Code := [58, 77] } := by decide
    rw [h] at he
    cases he
    revert hc
    decide
  · rintro ⟨e, he, _, _, _⟩
    have h : setByLine (fun s => s) {} (composeMessage [] [] []) = none := by decide
    rw [h] at he
    cases he

/-- C1 (amended): when the code is not empty, holds no space, does not begin with `:` and
is its own upper-casing, no parameter holds a space or begins with `:`, and the message
holds no `" :"`, parsing the composed line gives back code, parameters and message. -/
theorem roundTrip_amended (upperMap : Str → Str) (code message : Str) (params : List Str)
    (hne : code ≠ []) (hsp : 32 ∉ code) (hcol : code.head? ≠ some 58)
    (hup : ToUpper upperMap code = code)
    (hparams : ∀ p ∈ params, 32 ∉ p ∧ p.head? ≠ some 58)
    (_hmsg : ¬ [32, 58] <:+: message) :
    RoundTrips upperMap code message params :=
  ⟨_, setByLine_composeMessage upperMap code message params hne hsp hcol hup hparams,
    rfl, rfl, rfl⟩

/-- C1 (witness): `JOIN #c :hi` read back. -/
theorem roundTrip_amended_witness :
    RoundTrips (fun s => s) [74, 79, 73, 78] [104, 105] [[35, 99]] :=
  roundTrip_amended (fun s => s) [74, 79, 73, 78] [104, 105] [[35, 99]]
    (by decide) (by decide) (by decide) (by decide) (by decide) (by decide)

/-- C2: `composeMessage` is the code, then every parameter in call order with one space
before it, then `" :"` and the message exactly when the message is not empty. -/
theorem composeMessage_layout (code message : Str) (params : List Str) :
    composeMessage code message params =
      code ++ prefixedParams params ++ (if message = [] then [] else [32, 58] ++ message) :=
  composeMessage_eq code message params

/-- C3: on a non-empty line `setByLine` returns an event; with `rem` the line without its
optional source prefix, the message is what follows the first `" :"` of `rem` and the head
is what precedes it, or the message is empty and the head is all of `rem` when `rem` holds
no `" :"`; the code is the upper-cased first token of the head and the arguments are the
other tokens.  A line without `" :"` has an empty message. -/
theorem setByLine_decomposition (upperMap : Str → Str) (line : Str) (hne : line ≠ []) :
    ∃ e rem, setByLine upperMap {} line = some e ∧ IsRemainder line rem ∧
      (∀ pre post, FirstOccurrence [32, 58] rem pre post →
        e.Message = post ∧ HeadTokens upperMap pre e) ∧
      (¬ [32, 58] <:+: rem → e.Message = [] ∧ HeadTokens upperMap rem e) ∧
      (¬ [32, 58] <:+: line → e.Message = []) := by
  by_cases h : line.head? = some 58 ∧ 32 ∈ line
  · obtain ⟨h1, h2⟩ := h
    cases line with
    | nil => exact absurd rfl hne
    | cons c0 l =>
      simp only [List.head?_cons, Option.some.injEq] at h1
      subst h1
      have h3 : 32 ∈ l := by simpa using h2
      obtain ⟨src, rest, hl, hsrc⟩ := List.eq_append_cons_of_mem h3
      subst hl
      obtain ⟨e1, he1, _, _, _, _, hm⟩ := setNickUserHost_frame
        { ({} : Event) with Raw := 58 :: src ++ 32 :: rest, Source := src }
      obtain ⟨e, he, _, _, _, _, _, d1, d2⟩ := setMessage_setCode_spec upperMap e1 rest hm
      refine ⟨e, rest, ?_, Or.inl ⟨src, hsrc, rfl⟩, d1, d2, ?_⟩
      · rw [← List.cons_append, setByLine_of_space _ _ _ _ hsrc, he1]
        exact he
      · intro hno
        refine (d2 ?_).1
        rintro ⟨s, t, hst⟩
        exact hno ⟨58 :: src ++ 32 :: s, t, by simp [← hst]⟩
  · obtain ⟨e, he, _, _, _, _, _, d1, d2⟩ := setMessage_setCode_spec upperMap
      { ({} : Event) with Raw := line } line rfl
    refine ⟨e, line, ?_, Or.inr ⟨h, rfl⟩, d1, d2, fun hno => (d2 hno).1⟩
    rw [setByLine_of_no_source _ _ _ hne h]
    exact he

/-- C3 (witness): the line `PING`. -/
theorem setByLine_decomposition_witness :
    ∃ e rem, setByLine (fun s => s) {} [80, 73, 78, 71] = some e ∧
      IsRemainder [80, 73, 78, 71] rem ∧
      (∀ pre post, FirstOccurrence [32, 58] rem pre post →
        e.Message = post ∧ HeadTokens (fun s => s) pre e) ∧
      (¬ [32, 58] <:+: rem → e.Message = [] ∧ HeadTokens (fun s => s) rem e) ∧
      (¬ [32, 58] <:+: ([80, 73, 78, 71] : Str) → e.Message = []) :=
  setByLine_decomposition (fun s => s) [80, 73, 78, 71] (by decide)

/-- C4 (counterexample): the line `:abc` starts with `:` and has no space; `setByLine`
leaves `Source` empty and reads the whole line as the code `:ABC`, so `Source` is not a
part of the line between the leading `:` and a space. -/
theorem setByLine_source_counterexample :
    ∃ e, setByLine (fun s => s) {} [58, 97, 98, 99] = some e ∧ e.Source = [] ∧
      e.Code = [58, 65, 66, 67] ∧
      ¬ ∃ rest, ([58, 97, 98, 99] : Str) = 58 :: e.Source ++ 32 :: rest := by
  refine ⟨{ Raw := [58, 97, 98, 99], Code := [58, 65, 66, 67] }, by decide, rfl, rfl, ?_⟩
  rintro ⟨rest, h⟩
  simp at h

/-- C4 (amended): for a line that is `:`, a source without space, a space and a rest,
`Source` is that source; `Nick`, `User` and `Host` are the three parts when the source
reads `<nick>!<user>@<host>` and are empty when it does not.  A line that starts with `:`
and holds no space, and a non-empty line that does not start with `:`, leave `Source`,
`Nick`, `User` and `Host` empty. -/
theorem setByLine_source (upperMap : Str → Str) :
    (∀ src rest, 32 ∉ src →
      ∃ e, setByLine upperMap {} (58 :: src ++ 32 :: rest) = some e ∧ e.Source = src ∧
        (∀ nick user host, IsHostmask src nick user host →
          e.Nick = nick ∧ e.User = user ∧ e.Host = host) ∧
        ((¬ ∃ nick user host, IsHostmask src nick user host) →
          e.Nick = [] ∧ e.User = [] ∧ e.Host = [])) ∧
    (∀ l, 32 ∉ l →
      ∃ e, setByLine upperMap {} (58 :: l) = some e ∧
        e.Source = [] ∧ e.Nick = [] ∧ e.User = [] ∧ e.Host = []) ∧
    (∀ line, line ≠ [] → line.head? ≠ some 58 →
      ∃ e, setByLine upperMap {} line = some e ∧
        e.Source = [] ∧ e.Nick = [] ∧ e.User = [] ∧ e.Host = []) := by
  refine ⟨?_, ?_, ?_⟩
  · intro src rest hsrc
    obtain ⟨e1, he1, _, hs1, _, _, hm⟩ := setNickUserHost_frame
      { ({} : Event) with Raw := 58 :: src ++ 32 :: rest, Source := src }
    obtain ⟨e, he, _, hs, hn, hu, hh, _, _⟩ := setMessage_setCode_spec upperMap e1 rest hm
    refine ⟨e, ?_, ?_, ?_, ?_⟩
    · rw [setByLine_of_space _ _ _ _ hsrc, he1]
      exact he
    · rw [hs, hs1]
    · intro nick user host hmask
      have := setNickUserHost_match
        { ({} : Event) with Raw := 58 :: src ++ 32 :: rest, Source := src } nick user host hmask
      rw [he1] at this
      cases this
      exact ⟨hn, hu, hh⟩
    · intro hno
      have := setNickUserHost_nomatch
        { ({} : Event) with Raw := 58 :: src ++ 32 :: rest, Source := src } hno
      rw [he1] at this
      cases this
      exact ⟨hn, hu, hh⟩
  · intro l hl
    have hns : ¬ ((58 :: l).head? = some 58 ∧ 32 ∈ (58 :: l)) := by
      rintro ⟨_, hm⟩
      simp only [List.mem_cons] at hm
      rcases hm with hm | hm
      · exact absurd hm (by decide)
      · exact hl hm
    obtain ⟨e, he, _, hs, hn, hu, hh, _, _⟩ := setMessage_setCode_spec upperMap
      { ({} : Event) with Raw := 58 :: l } (58 :: l) rfl
    refine ⟨e, ?_, hs, hn, hu, hh⟩
    rw [setByLine_of_no_source _ _ _ (by simp) hns]
    exact he
  · intro line hne hhead
    obtain ⟨e, he, _, hs, hn, hu, hh, _, _⟩ := setMessage_setCode_spec upperMap
      { ({} : Event) with Raw := line } line rfl
    refine ⟨e, ?_, hs, hn, hu, hh⟩
    rw [setByLine_of_no_source _ _ _ hne (fun h => hhead h.1)]
    exact he

/-- C4 (witness): the line `:bob!u@h PING` has source `bob!u@h`, nick `bob`, user `u` and
host `h`. -/
theorem setByLine_source_witness :
    ∃ e, setByLine (fun s => s) {} [58, 98, 111, 98, 33, 117, 64, 104, 32, 80, 73, 78, 71]
        = some e ∧
      e.Source = [98, 111, 98, 33, 117, 64, 104] ∧
      e.Nick = [98, 111, 98] ∧ e.User = [117] ∧ e.Host = [104] := by
  obtain ⟨e, he, hs, hm, _⟩ := (setByLine_source (fun s => s)).1
    [98, 111, 98, 33, 117, 64, 104] [80, 73, 78, 71] (by decide)
  exact ⟨e, he, hs, hm [98, 111, 98] [117] [104] ⟨rfl, by decide, by decide, by decide⟩⟩

/-- C5: `setByLine` panics on the empty line, and on no other line; a line of one token
gives an event without arguments. -/
theorem setByLine_fails_on_empty_line (upperMap : Str → Str) (e : Event) :
    setByLine upperMap e [] = none ∧
    (∀ line, line ≠ [] → ∃ e1, setByLine upperMap e line = some e1) ∧
    (∀ tok, tok ≠ [] → 32 ∉ tok → ∃ e1, setByLine upperMap e tok = some e1 ∧
      e1.Arguments = []) := by
  refine ⟨rfl, fun line hne => setByLine_isSome upperMap e line hne, ?_⟩
  intro tok hne hsp
  have hidx : Index tok [32, 58] = none := by
    have := Index_marker_skip [] tok hsp
    simpa [Index, HasPrefix] using this
  refine ⟨{ e with Raw := tok, Code := ToUpper upperMap tok, Arguments := [] }, ?_, ?_⟩
  · rw [setByLine_of_no_source _ _ _ hne (fun h => hsp h.2), setMessage_of_none _ _ hidx]
    simp only [Option.some_bind, setCode_of_Split _ _ _ _ _ (Split_of_not_mem 32 tok hsp)]
  · rfl

/-- C6: for a `PRIVMSG` event whose message is `\x01`, a payload and a closing `\x01`,
the classification step keeps the payload as message, changes no other field than the
code, and the code is `CTCP_VERSION`, `CTCP_TIME`, `CTCP_USERINFO` or `CTCP_CLIENTINFO`
for the payload of that name, `CTCP_PING` for a payload whose first four bytes are `PING`,
and `CTCP` for any other payload. -/
theorem classifyCTCP_wrapped (e : Event) (payload : Str) (hcode : e.Code = PRIVMSG)
    (hmsg : e.Message = 1 :: payload ++ [1]) :
    ∃ e1, classifyCTCP e = some e1 ∧ e1.Message = payload ∧
      e1.Raw = e.Raw ∧ e1.Source = e.Source ∧ e1.Nick = e.Nick ∧ e1.User = e.User ∧
      e1.Host = e.Host ∧ e1.Arguments = e.Arguments ∧
      (payload = VERSION → e1.Code = CTCP_VERSION) ∧
      (payload = TIME → e1.Code = CTCP_TIME) ∧
      (payload = USERINFO → e1.Code = CTCP_USERINFO) ∧
      (payload = CLIENTINFO → e1.Code = CTCP_CLIENTINFO) ∧
      (payload.take 4 = PING → e1.Code = CTCP_PING) ∧
      (payload ≠ VERSION → payload ≠ TIME → payload ≠ USERINFO → payload ≠ CLIENTINFO →
        payload.take 4 ≠ PING → e1.Code = CTCP) := by
  have he := classifyCTCP_of_wrapped e payload hcode hmsg
  have hlen : payload.take 4 = PING → payload.length ≥ 4 := by
    intro h
    have := congrArg List.length h
    simp only [List.length_take, PING, List.length_cons, List.length_nil] at this
    omega
  by_cases h1 : payload = VERSION
  · rw [if_pos h1] at he
    refine ⟨_, he, rfl, rfl, rfl, rfl, rfl, rfl, rfl, ?_, ?_, ?_, ?_, ?_, ?_⟩
    · intro _; rfl
    · intro h; rw [h1] at h; exact absurd h (by decide)
    · intro h; rw [h1] at h; exact absurd h (by decide)
    · intro h; rw [h1] at h; exact absurd h (by decide)
    · intro h; rw [h1] at h; exact absurd h (by decide)
    · intro h; exact absurd h1 h
  by_cases h2 : payload = TIME
  · rw [if_neg h1, if_pos h2] at he
    refine ⟨_, he, rfl, rfl, rfl, rfl, rfl, rfl, rfl, ?_, ?_, ?_, ?_, ?_, ?_⟩
    · intro h; exact absurd h h1
    · intro _; rfl
    · intro h; rw [h2] at h; exact absurd h (by decide)
    · intro h; rw [h2] at h; exact absurd h (by decide)
    · intro h; rw [h2] at h; exact absurd h (by decide)
    · intro _ h; exact absurd h2 h
  by_cases h3 : payload.length ≥ 4 ∧ payload.take 4 = PING
  · rw [if_neg h1, if_neg h2, if_pos h3] at he
    refine ⟨_, he, rfl, rfl, rfl, rfl, rfl, rfl, rfl, ?_, ?_, ?_, ?_, ?_, ?_⟩
    · intro h; exact absurd h h1
    · intro h; exact absurd h h2
    · intro h; rw [h] at h3; exact absurd h3.2 (by decide)
    · intro h; rw [h] at h3; exact absurd h3.2 (by decide)
    · intro _; rfl
    · intro _ _ _ _ h; exact absurd h3.2 h
  have h3' : payload.take 4 ≠ PING := fun h => h3 ⟨hlen h, h⟩
  by_cases h4 : payload = USERINFO
  · rw [if_neg h1, if_neg h2, if_neg h3, if_pos h4] at he
    refine ⟨_, he, rfl, rfl, rfl, rfl, rfl, rfl, rfl, ?_, ?_, ?_, ?_, ?_, ?_⟩
    · intro h; exact absurd h h1
    · intro h; exact absurd h h2
    · intro _; rfl
    · intro h; rw [h4] at h; exact absurd h (by decide)
    · intro h; exact absurd h h3'
    · intro _ _ h; exact absurd h4 h
  by_cases h5 : payload = CLIENTINFO
  · rw [if_neg h1, if_neg h2, if_neg h3, if_neg h4, if_pos h5] at he
    refine ⟨_, he, rfl, rfl, rfl, rfl, rfl, rfl, rfl, ?_, ?_, ?_, ?_, ?_, ?_⟩
    · intro h; exact absurd h h1
    · intro h; exact absurd h h2
    · intro h; exact absurd h h4
    · intro _; rfl
    · intro h; exact absurd h h3'
    · intro _ _ _ h; exact absurd h5 h
  · rw [if_neg h1, if_neg h2, if_neg h3, if_neg h4, if_neg h5] at he
    refine ⟨_, he, rfl, rfl, rfl, rfl, rfl, rfl, rfl, ?_, ?_, ?_, ?_, ?_, ?_⟩
    · intro h; exact absurd h h1
    · intro h; exact absurd h h2
    · intro h; exact absurd h h4
    · intro h; exact absurd h h5
    · intro h; exact absurd h h3'
    · intro _ _ _ _ _; rfl

/-- C6 (witness): the message `\x01PING 12345\x01` of a `PRIVMSG` is classified as
`CTCP_PING` with the message `PING 12345`. -/
theorem classifyCTCP_wrapped_witness :
    ∃ e1, classifyCTCP
        { Code := PRIVMSG, Message := [1, 80, 73, 78, 71, 32, 49, 50, 51, 52, 53, 1] } = some e1 ∧
      e1.Message = [80, 73, 78, 71, 32, 49, 50, 51, 52, 53] ∧ e1.Code = CTCP_PING := by
  obtain ⟨e1, h1, h2, _, _, _, _, _, _, _, _, _, _, h3, _⟩ :=
    classifyCTCP_wrapped
      { Code := PRIVMSG, Message := [1, 80, 73, 78, 71, 32, 49, 50, 51, 52, 53, 1] }
      [80, 73, 78, 71, 32, 49, 50, 51, 52, 53] rfl rfl
  exact ⟨e1, h1, h2, h3 (by decide)⟩

/-- C7: an event whose code is not `PRIVMSG`, or whose message is empty or does not begin
with `\x01`, leaves the classification step unchanged in every field. -/
theorem classifyCTCP_unchanged (e : Event)
    (h : e.Code ≠ PRIVMSG ∨ e.Message = [] ∨ e.Message.head? ≠ some 1) :
    classifyCTCP e = some e := by
  unfold classifyCTCP
  rw [if_neg]
  · rfl
  · rintro ⟨h1, h2, h3⟩
    rcases h with h | h | h
    · exact h h1
    · rw [h] at h2
      simp at h2
    · exact h h3

/-- C7 (witness): the `PRIVMSG` with the message `hi` stays as it is. -/
theorem classifyCTCP_unchanged_witness :
    classifyCTCP { Code := PRIVMSG, Message := [104, 105] } =
      some { Code := PRIVMSG, Message := [104, 105] } :=
  classifyCTCP_unchanged { Code := PRIVMSG, Message := [104, 105] }
    (Or.inr (Or.inr (by decide)))

/-- C8: the handler registered for `ERR_NICKNAMEINUSE` appends `_` to a current nickname
of at most 8 bytes and puts `_` before a longer one, and sends the one command
`NICK <new nickname>`; twice from `nick` gives `nick__`, and a nickname of 9 bytes gets a
leading `_`. -/
theorem nicknameInUse_fallback (upperMap : Str → Str) (timeNow : Str) (handlers : Handlers) :
    ∃ h, setupCallbacks upperMap timeNow handlers ERR_NICKNAMEINUSE = some h ∧
      (∀ c e, c.currentNick.length ≤ 8 →
        h c e = some { c with
          currentNick := c.currentNick ++ [95]
          cWrite := c.cWrite ++ [NICK ++ [32] ++ (c.currentNick ++ [95])] }) ∧
      (∀ c e, c.currentNick.length > 8 →
        h c e = some { c with
          currentNick := [95] ++ c.currentNick
          cWrite := c.cWrite ++ [NICK ++ [32] ++ ([95] ++ c.currentNick)] }) ∧
      (∀ c e, c.currentNick = [110, 105, 99, 107] →
        ∃ c1 c2, h c e = some c1 ∧ h c1 e = some c2 ∧
          c2.currentNick = [110, 105, 99, 107, 95, 95]) ∧
      (∀ c e, c.currentNick.length = 9 →
        ∃ c1, h c e = some c1 ∧ c1.currentNick = 95 :: c.currentNick) := by
  refine ⟨nicknameInUseHandler, rfl, ?_, ?_, ?_, ?_⟩
  · intro c e hlen
    have : ¬ c.currentNick.length > 8 := by omega
    simp only [nicknameInUseHandler, this, if_false, Command, composeMessage_eq, prefixedParams]
    simp
  · intro c e hlen
    simp only [nicknameInUseHandler, hlen, if_true, Command, composeMessage_eq, prefixedParams]
    simp
  · intro c e hc
    refine ⟨_, _, rfl, rfl, ?_⟩
    simp [Command, hc]
  · intro c e hlen
    have : c.currentNick.length > 8 := by omega
    refine ⟨_, rfl, ?_⟩
    simp [Command, this]

/-- C9: on a current nickname of 9 bytes, `nickname9`, the handler registered for
`ERR_BANNICKCHANGE` appends the underscore while the handler registered for
`ERR_NICKNAMEINUSE` puts it in front; on a nickname of at most 8 bytes the two agree. -/
theorem banNickChange_differs :
    ∃ h437 h433,
      setupCallbacks (fun s => s) [] (fun _ => none) ERR_BANNICKCHANGE = some h437 ∧
      setupCallbacks (fun s => s) [] (fun _ => none) ERR_NICKNAMEINUSE = some h433 ∧
      h437 { currentNick := [110, 105, 99, 107, 110, 97, 109, 101, 57] } {} =
        some { currentNick := [110, 105, 99, 107, 110, 97, 109, 101, 57, 95]
               cWrite := [[78, 73, 67, 75, 32, 110, 105, 99, 107, 110, 97, 109, 101, 57, 95]] } ∧
      h433 { currentNick := [110, 105, 99, 107, 110, 97, 109, 101, 57] } {} =
        some { currentNick := [95, 110, 105, 99, 107, 110, 97, 109, 101, 57]
               cWrite := [[78, 73, 67, 75, 32, 95, 110, 105, 99, 107, 110, 97, 109, 101, 57]] } ∧
      (∀ c e, c.currentNick.length ≤ 8 → h437 c e = h433 c e) := by
  refine ⟨banNickChangeHandler, nicknameInUseHandler, rfl, rfl, by decide, by decide, ?_⟩
  intro c e hlen
  have : ¬ c.currentNick.length > 8 := by omega
  simp only [banNickChangeHandler, nicknameInUseHandler, this, if_false]

/-- C10: the handler registered for `RPL_WELCOME` reads `e.Arguments[0]` unguarded.  The
line `:irc.srv 001 :Welcome` parses to a welcome event without argument, on which the
handler panics; on an event with a first argument it sets the current nickname to that
argument and changes nothing else. -/
theorem welcomeHandler_panics_without_argument :
    (∃ e, setByLine (fun s => s) {}
        [58, 105, 114, 99, 46, 115, 114, 118, 32, 48, 48, 49, 32, 58, 87, 101, 108, 99, 111,
          109, 101] = some e ∧
      e.Code = RPL_WELCOME ∧ e.Arguments = [] ∧
      handle (setupCallbacks (fun s => s) [] (fun _ => none)) none
        { nick := [97, 108, 105, 99, 101], currentNick := [97, 108, 105, 99, 101] } e = none) ∧
    (∀ (upperMap : Str → Str) (timeNow : Str) (hs : Handlers),
      ∃ h, setupCallbacks upperMap timeNow hs RPL_WELCOME = some h ∧
        (∀ c e, e.Arguments = [] → h c e = none) ∧
        (∀ c e a rest, e.Arguments = a :: rest → h c e = some { c with currentNick := a })) := by
  refine ⟨⟨{ Raw := [58, 105, 114, 99, 46, 115, 114, 118, 32, 48, 48, 49, 32, 58, 87, 101, 108,
               99, 111, 109, 101],
             Source := [105, 114, 99, 46, 115, 114, 118], Code := RPL_WELCOME,
             Message := [87, 101, 108, 99, 111, 109, 101] }, by decide, rfl, rfl, by decide⟩, ?_⟩
  intro upperMap timeNow hs
  refine ⟨welcomeHandler, ?_, ?_, ?_⟩
  · simp [setupCallbacks, SetHandler, ToUpper, RPL_WELCOME]
  · intro c e h
    exact welcomeHandler_of_no_argument c e h
  · intro c e a rest h
    simp [welcomeHandler, h]

/-- C11: the handler registered for `NICK` compares the source nick of the event with
the desired nickname `c.nick`, not with the current nickname.  After `SetNick` from `old`
to `new`, the confirmation `:old NICK :new` leaves the current nickname `old`; and with
current nickname `alice_` and desired nickname `alice`, the event `:alice NICK :carol`
of another user makes `carol` the current nickname. -/
theorem nickHandler_compares_desired_nick :
    ∃ h, setupCallbacks (fun s => s) [] (fun _ => none) NICK = some h ∧
      h { nick := [110, 101, 119], currentNick := [111, 108, 100] }
          { Nick := [111, 108, 100], Code := NICK, Message := [110, 101, 119] } =
        some { nick := [110, 101, 119], currentNick := [111, 108, 100] } ∧
      h { nick := [97, 108, 105, 99, 101], currentNick := [97, 108, 105, 99, 101, 95] }
          { Nick := [97, 108, 105, 99, 101], Code := NICK, Message := [99, 97, 114, 111, 108] } =
        some { nick := [97, 108, 105, 99, 101], currentNick := [99, 97, 114, 111, 108] } ∧
      (∀ c e, h c e = some (if e.Nick = c.nick then { c with currentNick := e.Message } else c)) := by
  refine ⟨nickHandler, rfl, by decide, by decide, ?_⟩
  intro c e
  by_cases hn : e.Nick = c.nick
  · simp [nickHandler, hn]
  · simp [nickHandler, hn]

/-- C12: the handler registered for `PING` answers with the message of the event only.
The line `PING 12345` carries its payload as an argument and is answered with a bare
`PONG`; a line `PING :<payload>` is answered with the one command `PONG :<payload>`. -/
theorem pingHandler_echoes_message_only :
    (∃ e, setByLine (fun s => s) {} [80, 73, 78, 71, 32, 49, 50, 51, 52, 53] = some e ∧
      e.Arguments = [[49, 50, 51, 52, 53]] ∧ e.Message = [] ∧
      handle (setupCallbacks (fun s => s) [] (fun _ => none)) none {} e =
        some { cWrite := [[80, 79, 78, 71]] }) ∧
    (∀ (upperMap : Str → Str) (timeNow : Str) (hs : Handlers) (D : Option Handler)
        (c : Client) (x : Str),
      ∃ e, setByLine upperMap {} (PING ++ [32, 58] ++ x) = some e ∧
        handle (setupCallbacks upperMap timeNow hs) D c e =
          some { c with cWrite := c.cWrite ++
            [PONG ++ (if x = [] then [] else [32, 58] ++ x)] }) := by
  refine ⟨⟨{ Raw := [80, 73, 78, 71, 32, 49, 50, 51, 52, 53], Code := PING,
             Arguments := [[49, 50, 51, 52, 53]] }, by decide, rfl, rfl, by decide⟩, ?_⟩
  intro upperMap timeNow hs D c x
  refine ⟨_, setByLine_ping_trailing upperMap x, ?_⟩
  have hreg : setupCallbacks upperMap timeNow hs PING = some pingHandler := rfl
  unfold handle
  have hcode : ({ Raw := PING ++ [32, 58] ++ x, Code := PING, Message := x } : Event).Code
      ≠ PRIVMSG := by
    show PING ≠ PRIVMSG
    decide
  rw [classifyCTCP_of_code_ne _ hcode]
  simp only [Option.bind_eq_bind, Option.some_bind, hreg, pingHandler, Command,
    composeMessage_eq, prefixedParams, List.append_nil]

/-- C13 (counterexamples): a new client that reads the line of the claim sends nothing
for the target `:x`, and a notice to the empty nick for the nick `a@b`; it also sends
nothing for the nick `a b`, the user `u v`, the host `h x` and the target `x :y`, and a
notice to `a` for the nick `a!b`. -/
theorem ctcpVersion_counterexample :
    (versionQuerySent [98, 111, 98] [117] [104] [58, 120] = some [] ∧
      versionQuerySent [98, 111, 98] [117] [104] [58, 120] ≠
        some [versionReplyLine [98, 111, 98]]) ∧
    (versionQuerySent [97, 64, 98] [117] [104] [35, 99] = some [versionReplyLine []] ∧
      versionQuerySent [97, 64, 98] [117] [104] [35, 99] ≠
        some [versionReplyLine [97, 64, 98]]) ∧
    (versionQuerySent [97, 32, 98] [117] [104] [35, 99] = some [] ∧
      versionQuerySent [97, 32, 98] [117] [104] [35, 99] ≠
        some [versionReplyLine [97, 32, 98]]) ∧
    (versionQuerySent [97, 33, 98] [117] [104] [35, 99] = some [versionReplyLine [97]] ∧
      versionQuerySent [97, 33, 98] [117] [104] [35, 99] ≠
        some [versionReplyLine [97, 33, 98]]) ∧
    (versionQuerySent [98, 111, 98] [117, 32, 118] [104] [35, 99] = some [] ∧
      versionQuerySent [98, 111, 98] [117, 32, 118] [104] [35, 99] ≠
        some [versionReplyLine [98, 111, 98]]) ∧
    (versionQuerySent [98, 111, 98] [117] [104, 32, 120] [35, 99] = some [] ∧
      versionQuerySent [98, 111, 98] [117] [104, 32, 120] [35, 99] ≠
        some [versionReplyLine [98, 111, 98]]) ∧
    (versionQuerySent [98, 111, 98] [117] [104] [120, 32, 58, 121] = some [] ∧
      versionQuerySent [98, 111, 98] [117] [104] [120, 32, 58, 121] ≠
        some [versionReplyLine [98, 111, 98]]) := by
  refine ⟨⟨by decide, by decide⟩, ⟨by decide, by decide⟩, ⟨by decide, by decide⟩,
    ⟨by decide, by decide⟩, ⟨by decide, by decide⟩, ⟨by decide, by decide⟩,
    ⟨by decide, by decide⟩⟩

/-- C13 (amended): for a nick without space, `!` and `@`, a user and a host without
space, and a target that does not begin with `:` and holds no `" :"`, the line
`:<nick>!<user>@<host> PRIVMSG <target> :\x01VERSION\x01` is parsed, classified as
`CTCP_VERSION`, given to the handler registered for that code by `setupCallbacks`, and the
one line sent is `NOTICE <nick> :\x01\x01VERSION go-irc\x01`. -/
theorem ctcpVersion_endToEnd (upperMap : Str → Str) (timeNow : Str) (hs : Handlers)
    (D : Option Handler) (c : Client) (nick user host target : Str)
    (hn : 32 ∉ nick ∧ 33 ∉ nick ∧ 64 ∉ nick) (hu : 32 ∉ user) (hh : 32 ∉ host)
    (ht : target.head? ≠ some 58 ∧ ¬ [32, 58] <:+: target) :
    ∃ e e1,
      setByLine upperMap {} (versionQueryLine nick user host target) = some e ∧
      classifyCTCP e = some e1 ∧ e1.Code = CTCP_VERSION ∧
      setupCallbacks upperMap timeNow hs e1.Code = some ctcpVersionHandler ∧
      handle (setupCallbacks upperMap timeNow hs) D c e =
        some { c with cWrite := c.cWrite ++ [versionReplyLine nick] } := by
  obtain ⟨e, hparse, hnick, hcode, hmsg⟩ :=
    setByLine_privmsg upperMap nick user host target ([1] ++ VERSION ++ [1]) hn hu hh ht
  have hclass := classifyCTCP_of_wrapped e VERSION hcode hmsg
  rw [if_pos rfl] at hclass
  have hreg : setupCallbacks upperMap timeNow hs CTCP_VERSION = some ctcpVersionHandler := rfl
  refine ⟨e, _, hparse, hclass, rfl, hreg, ?_⟩
  unfold handle
  rw [hclass]
  simp only [Option.bind_eq_bind, Option.some_bind, hreg, ctcpVersionHandler, Notice, Command,
    composeMessage_eq, prefixedParams, hnick, versionReplyLine]
  simp [VERSION]

/-- C13 (witness): the line `:bob!u@h PRIVMSG #c :\x01VERSION\x01` makes a new client
send `NOTICE bob :\x01\x01VERSION go-irc\x01`. -/
theorem ctcpVersion_endToEnd_witness :
    ∃ e e1,
      setByLine (fun s => s) {} (versionQueryLine [98, 111, 98] [117] [104] [35, 99]) = some e ∧
      classifyCTCP e = some e1 ∧ e1.Code = CTCP_VERSION ∧
      setupCallbacks (fun s => s) [] (fun _ => none) e1.Code = some ctcpVersionHandler ∧
      handle (setupCallbacks (fun s => s) [] (fun _ => none)) none {} e =
        some { cWrite := [[78, 79, 84, 73, 67, 69, 32, 98, 111, 98, 32, 58, 1, 1, 86, 69, 82, 83,
          73, 79, 78, 32, 103, 111, 45, 105, 114, 99, 1]] } :=
  ctcpVersion_endToEnd (fun s => s) [] (fun _ => none) none {} [98, 111, 98] [117] [104]
    [35, 99] (by decide) (by decide) (by decide) (by decide)

/-- C14: after `SetHandler(code, h)` the handler that `handle` runs for an event whose
classified code is the upper-cased `code` is `h`, whatever table there was before, and the
entry of every other code is unchanged. -/
theorem SetHandler_last_wins (upperMap : Str → Str) (hs : Handlers) (code : Str)
    (h : Handler) :
    SetHandler upperMap hs code h (ToUpper upperMap code) = some h ∧
    (∀ (D : Option Handler) (c : Client) (event e1 : Event),
      classifyCTCP event = some e1 → e1.Code = ToUpper upperMap code →
        handle (SetHandler upperMap hs code h) D c event = h c e1) ∧
    (∀ k, k ≠ ToUpper upperMap code → SetHandler upperMap hs code h k = hs k) := by
  refine ⟨by simp [SetHandler], ?_, ?_⟩
  · intro D c event e1 hcl hcode
    unfold handle
    rw [hcl]
    simp [SetHandler, hcode]
  · intro k hk
    simp [SetHandler, hk]

/-- C14 (witness): a handler registered under `ping` on top of the table of a new
client replaces the built-in handler of `PING`. -/
theorem SetHandler_last_wins_witness :
    handle (SetHandler (fun s => s) (setupCallbacks (fun s => s) [] (fun _ => none))
        [112, 105, 110, 103] (fun c _ => some (Raw c [104, 105]))) none {}
        { Code := PING, Message := [120] } =
      some { cWrite := [[104, 105]] } :=
  (SetHandler_last_wins (fun s => s) (setupCallbacks (fun s => s) [] (fun _ => none))
    [112, 105, 110, 103] (fun c _ => some (Raw c [104, 105]))).2.1 none {}
    { Code := PING, Message := [120] } { Code := PING, Message := [120] } rfl rfl

/-- C15: the 15-minute tick of `pingLoop` sends one `PING` command in every state, and
after it the command `NICK <desired nickname>` exactly when the current nickname differs
from the desired one. -/
theorem pingLoopTick2_enqueues (c : Client) (unixNano : Str) :
    (pingLoopTick2 c unixNano).cWrite =
      c.cWrite ++ [PING ++ [32] ++ unixNano] ++
        (if c.currentNick ≠ c.nick then [NICK ++ [32] ++ c.nick] else []) := by
  by_cases h : c.nick = c.currentNick
  · have h' : ¬ c.currentNick ≠ c.nick := fun hh => hh h.symm
    simp [pingLoopTick2, Ping, Command, composeMessage_one_param, h, h']
  · have h' : c.currentNick ≠ c.nick := fun hh => h hh.symm
    simp [pingLoopTick2, Ping, Command, composeMessage_one_param, h, h']

/-- C16 (counterexample): with desired nickname `alice` and current nickname `alice_`,
the 15-minute tick of `pingLoop` changes the current nickname to `alice`. -/
theorem currentNick_changed_by_pingLoop :
    (pingLoopTick2 { nick := [97, 108, 105, 99, 101],
                     currentNick := [97, 108, 105, 99, 101, 95] } [49]).currentNick =
        [97, 108, 105, 99, 101] ∧
      ([97, 108, 105, 99, 101] : Str) ≠ [97, 108, 105, 99, 101, 95] := by
  decide

/-- C16 (amended): `SetNick`, `Command`, `Raw`, `Join`, `Part`, `Notice`, `Privmsg`, the
registration commands of `Start` and the one-minute tick of `pingLoop` leave the current
nickname unchanged; the 15-minute tick of `pingLoop` leaves it equal to the desired
nickname. -/
theorem currentNick_frame (c : Client) :
    (∀ nick, (SetNick c nick).currentNick = c.currentNick) ∧
    (∀ code message params, (Command c code message params).currentNick = c.currentNick) ∧
    (∀ message, (Raw c message).currentNick = c.currentNick) ∧
    (∀ channels, (Client.Join c channels).currentNick = c.currentNick) ∧
    (∀ channels, (Client.Part c channels).currentNick = c.currentNick) ∧
    (∀ target message, (Notice c target message).currentNick = c.currentNick) ∧
    (∀ target message, (Privmsg c target message).currentNick = c.currentNick) ∧
    (Start c).currentNick = c.currentNick ∧
    (∀ since unixNano, (pingLoopTick c since unixNano).currentNick = c.currentNick) ∧
    (∀ unixNano, (pingLoopTick2 c unixNano).currentNick = c.nick) := by
  refine ⟨fun _ => rfl, fun _ _ _ => rfl, fun _ => rfl, fun _ => rfl, fun _ => rfl,
    fun _ _ => rfl, fun _ _ => rfl, ?_, ?_, ?_⟩
  · simp only [Start]
    split <;> rfl
  · intro since unixNano
    simp only [pingLoopTick]
    split <;> rfl
  · intro unixNano
    by_cases h : c.nick = c.currentNick
    · simp [pingLoopTick2, Ping, Command, h]
    · simp [pingLoopTick2, Ping, Command, h]

/-- C17: `readLoop` drops the last two bytes of every line without looking at them.  A
line that ends in `\r\n` loses exactly its terminator; the line `PING\n` is handed to the
codec as `PIN` and dispatched; the line `\n` makes the slice panic. -/
theorem readLoop_strips_two_bytes :
    (∀ body, stripTerminator (body ++ [13, 10]) = some body) ∧
    stripTerminator [80, 73, 78, 71, 10] = some [80, 73, 78] ∧
    readLoopStep (fun s => s) (fun _ => none) (some (fun c e => some (Raw c e.Code))) {}
        [80, 73, 78, 71, 10] = some { cWrite := [[80, 73, 78]] } ∧
    stripTerminator [10] = none ∧
    (∀ upperMap handlers D c, readLoopStep upperMap handlers D c [10] = none) := by
  refine ⟨?_, by decide, by decide, by decide, fun _ _ _ _ => rfl⟩
  intro body
  have h1 : ¬ (body ++ [13, 10]).length < 2 := by simp
  have h2 : (body ++ [13, 10]).length - 2 = body.length := by simp
  simp only [stripTerminator, h1, if_false, sliceTo, h2]
  simp

/-- C18: in every schedule of the three loops and `Disconnect`, the statements that
`Disconnect` has completed are a beginning of its body; once the socket is closed, exactly
three signals were received from `cExit` before and all three loops have returned; and
once `cError` is closed, that was the last statement, after the closing of the socket. -/
theorem Disconnect_order (ms : List Move) :
    (Shutdown.run ms).done <+: DisconnectProgram ∧
    (Action.closeSocket ∈ (Shutdown.run ms).done →
      ((Shutdown.run ms).done.takeWhile (fun a => a ≠ Action.closeSocket)).count
          Action.recvExit = 3 ∧
        (Shutdown.run ms).read = LoopState.returned ∧
        (Shutdown.run ms).write = LoopState.returned ∧
        (Shutdown.run ms).ping = LoopState.returned) ∧
    (Action.closeError ∈ (Shutdown.run ms).done →
      (Shutdown.run ms).done.getLast? = some Action.closeError ∧
        Action.closeSocket ∈ (Shutdown.run ms).done.dropLast) := by
  have h := Shutdown.run_inv ms
  have hc := (Shutdown.run ms).done_cases h
  generalize Shutdown.run ms = s at h hc
  obtain ⟨r, w, p, d⟩ := s
  simp only at hc
  rcases hc with hc | hc | hc | hc | hc | hc | hc | hc | hc <;> subst hc <;> revert h <;>
    cases r <;> cases w <;> cases p <;> decide

/-- C18 (witness): the write loop fails first, then `Disconnect` runs, the read loop
ends while `Disconnect` waits, and the signals arrive from `pingLoop`, `writeLoop` and
`readLoop` in that order; `cError` is closed last, after the socket. -/
theorem Disconnect_order_witness :
    (Shutdown.run [Move.finish Loop.write, Move.disconnect, Move.disconnect, Move.disconnect,
        Move.finish Loop.read, Move.receive Loop.ping, Move.receive Loop.write,
        Move.receive Loop.read, Move.disconnect, Move.disconnect]).done.getLast? =
      some Action.closeError ∧
    Action.closeSocket ∈ (Shutdown.run [Move.finish Loop.write, Move.disconnect,
        Move.disconnect, Move.disconnect, Move.finish Loop.read, Move.receive Loop.ping,
        Move.receive Loop.write, Move.receive Loop.read, Move.disconnect,
        Move.disconnect]).done.dropLast :=
  (Disconnect_order [Move.finish Loop.write, Move.disconnect, Move.disconnect,
    Move.disconnect, Move.finish Loop.read, Move.receive Loop.ping, Move.receive Loop.write,
    Move.receive Loop.read, Move.disconnect, Move.disconnect]).2.2 (by decide)

/-- C19: the classification step is not total.  On a `PRIVMSG` whose message is the
single byte `\x01`, or begins with `\x01` and holds no later `\x01`, the last `\x01` is at
index 0 and the slice `event.Message[1:0]` panics; on every other event a classified
event is produced. -/
theorem classifyCTCP_panics_on_lone_delimiter :
    classifyCTCP { Code := PRIVMSG, Message := [1] } = none ∧
    LastIndex [1] [1] = some 0 ∧
    (∀ e : Event, classifyCTCP e = none ↔
      (e.Code = PRIVMSG ∧ ∃ rest, e.Message = 1 :: rest ∧ 1 ∉ rest)) := by
  refine ⟨by decide, by decide, ?_⟩
  intro e
  constructor
  · intro hnone
    by_cases hcond : e.Code = PRIVMSG ∧ e.Message.length > 0 ∧ e.Message.head? = some 1
    · obtain ⟨hcode, _, hhead⟩ := hcond
      cases hm : e.Message with
      | nil => rw [hm] at hhead; simp at hhead
      | cons a rest =>
        rw [hm] at hhead
        simp only [List.head?_cons, Option.some.injEq] at hhead
        subst hhead
        refine ⟨hcode, rest, rfl, ?_⟩
        intro hmem
        obtain ⟨e1, he1⟩ := classifyCTCP_of_second_delimiter e rest hm hmem
        rw [he1] at hnone
        cases hnone
    · unfold classifyCTCP at hnone
      rw [if_neg hcond] at hnone
      cases hnone
  · rintro ⟨hcode, rest, hmsg, hrest⟩
    exact (classifyCTCP_of_lone_delimiter e rest hcode hmsg hrest).2

/-- C20: when the code is not empty, holds no space, does not begin with `:` and is its
own upper-casing, and no parameter holds a space or begins with `:`, then for every
message `setByLine` reads back from the composed line the code, the parameters and the
message, with `Source`, `Nick`, `User` and `Host` empty. -/
theorem roundTrip_exact (upperMap : Str → Str) (code message : Str) (params : List Str)
    (hne : code ≠ []) (hsp : 32 ∉ code) (hcol : code.head? ≠ some 58)
    (hup : ToUpper upperMap code = code)
    (hparams : ∀ p ∈ params, 32 ∉ p ∧ p.head? ≠ some 58) :
    ∃ e, setByLine upperMap {} (composeMessage code message params) = some e ∧
      e.Code = code ∧ e.Arguments = params ∧ e.Message = message ∧
      e.Source = [] ∧ e.Nick = [] ∧ e.User = [] ∧ e.Host = [] :=
  ⟨_, setByLine_composeMessage upperMap code message params hne hsp hcol hup hparams,
    rfl, rfl, rfl, rfl, rfl, rfl, rfl⟩

/-- C20 (witness): `PRIVMSG #c  :a :b`, with an empty second parameter and a message
that holds `" :"`, is read back exactly. -/
theorem roundTrip_exact_witness :
    ∃ e, setByLine (fun s => s) {}
        (composeMessage PRIVMSG [97, 32, 58, 98] [[35, 99], []]) = some e ∧
      e.Code = PRIVMSG ∧ e.Arguments = [[35, 99], []] ∧ e.Message = [97, 32, 58, 98] ∧
      e.Source = [] ∧ e.Nick = [] ∧ e.User = [] ∧ e.Host = [] :=
  roundTrip_exact (fun s => s) PRIVMSG [97, 32, 58, 98] [[35, 99], []]
    (by decide) (by decide) (by decide) (by decide) (by decide)

end Irc
